import Mathlib

/-!
# Verification of the hierarchical document service

A shallow embedding, in Lean 4, of the hierarchy / ingestion / navigation
core of `n8n/haystack-service/haystack_service_simple.py` (and, where a
claim refers to it, the single-document import path of
`n8n/haystack-service/haystack_service.py`).

Conventions of the embedding:

* Python dictionaries whose shape the service treats as open ("metadata")
  are modelled as insertion-ordered association lists `PyDict` over an
  inductive `PyValue` mirroring JSON-serialisable Python values.  Floats
  are carried abstractly: a `PyValue.float` holds only its `str()` form,
  which is the sole attribute of a float the embedded code inspects.
* The Elasticsearch index is modelled as an insertion-ordered association
  list `Store` from document id to the stored source object `EsDoc`.
  `es_client.index(id=i, body=d, refresh=True)` is an upsert (`storePut`),
  `es_client.get` a lookup (`storeGet`).  These are the only store
  operations the embedded endpoints rely on.
* The embedding model (`embedding_model.encode`) is an oracle
  `String → Except String EmbVec`; nothing in the service inspects the
  numeric contents of an embedding, so `EmbVec` is an opaque stand-in for
  the float vector.
* `HTTPException(status_code=c, detail=d)` is `HTTPError.mk c d`; an
  endpoint handler returns `Except HTTPError α`.  A raised exception does
  not roll back store writes already performed, so stateful handlers
  return the (possibly partially updated) store alongside the result.
-/

/-- JSON-style Python values as stored in document metadata.  A float is
represented only by its `str()` rendering (the only observation the
service makes of a float value). -/
inductive PyValue where
  | str (s : String)
  | int (n : Int)
  | float (repr : String)
  | bool (b : Bool)
  | none
  | list (xs : List PyValue)
  | dict (d : List (String × PyValue))

/-- An insertion-ordered Python dict with string keys. -/
abbrev PyDict := List (String × PyValue)

/-- `d[k] = v` on a Python dict: overwrite the entry for `k` in place
(keeping its position) if the key exists, else append at the end.  Python
dicts never carry duplicate keys, so overwriting the first occurrence is
the exact Python behaviour. -/
def dictSet (d : PyDict) (k : String) (v : PyValue) : PyDict :=
  match d with
  | [] => [(k, v)]
  | p :: ps => if p.1 = k then (k, v) :: ps else p :: dictSet ps k v

/-- `d.get(k)` on a Python dict. -/
def dictGet (d : PyDict) (k : String) : Option PyValue :=
  match d with
  | [] => Option.none
  | p :: ps => if p.1 = k then some p.2 else dictGet ps k

/-- `d.update(u)` on Python dicts: assign every pair of `u` into `d`
in order. -/
def dictUpdate (d u : PyDict) : PyDict :=
  u.foldl (fun acc p => dictSet acc p.1 p.2) d

theorem dictGet_dictSet_self (d : PyDict) (k : String) (v : PyValue) :
    dictGet (dictSet d k v) k = some v := by
  induction d with
  | nil => simp [dictSet, dictGet]
  | cons p ps ih =>
    by_cases hp : p.1 = k
    · simp [dictSet, dictGet, hp]
    · simp [dictSet, dictGet, hp, ih]

theorem dictGet_dictSet_other (d : PyDict) (k k' : String) (v : PyValue)
    (hne : k' ≠ k) : dictGet (dictSet d k v) k' = dictGet d k' := by
  induction d with
  | nil => simp [dictSet, dictGet, Ne.symm hne]
  | cons p ps ih =>
    by_cases hp : p.1 = k
    · subst hp
      simp [dictSet, dictGet, Ne.symm hne]
    · by_cases hp' : p.1 = k'
      · simp [dictSet, dictGet, hp, hp', hne]
      · simp [dictSet, dictGet, hp, hp', ih]

/-- Generic lookup in an insertion-ordered association list keyed by
strings (used for the Elasticsearch index and the per-request workflow
validation map). -/
def alistGet {α : Type} (l : List (String × α)) (k : String) : Option α :=
  match l with
  | [] => Option.none
  | p :: ps => if p.1 = k then some p.2 else alistGet ps k

/-- Generic upsert: overwrite the entry in place, else append. -/
def alistSet {α : Type} (l : List (String × α)) (k : String) (v : α) :
    List (String × α) :=
  match l with
  | [] => [(k, v)]
  | p :: ps => if p.1 = k then (k, v) :: ps else p :: alistSet ps k v

theorem alistGet_alistSet_self {α : Type} (l : List (String × α)) (k : String)
    (v : α) : alistGet (alistSet l k v) k = some v := by
  induction l with
  | nil => simp [alistSet, alistGet]
  | cons p ps ih =>
    by_cases hp : p.1 = k
    · simp [alistSet, alistGet, hp]
    · simp [alistSet, alistGet, hp, ih]

theorem alistGet_alistSet_other {α : Type} (l : List (String × α))
    (k k' : String) (v : α) (hne : k' ≠ k) :
    alistGet (alistSet l k v) k' = alistGet l k' := by
  induction l with
  | nil => simp [alistSet, alistGet, Ne.symm hne]
  | cons p ps ih =>
    by_cases hp : p.1 = k
    · subst hp
      simp [alistSet, alistGet, Ne.symm hne]
    · by_cases hp' : p.1 = k'
      · simp [alistSet, alistGet, hp, hp', hne]
      · simp [alistSet, alistGet, hp, hp', ih]

/-- Opaque stand-in for the float vector produced by
`embedding_model.encode`; no embedded code inspects its contents. -/
abbrev EmbVec := List Int

/-- The `hierarchy` sub-object written by `/ingest`
(`haystack_service_simple.py` lines 259-266). -/
structure Hierarchy where
  level : Int
  parent_id : Option String
  children_ids : List String
  path : List String
  is_root : Bool
  depth_from_root : Int
  deriving Repr, DecidableEq

/-- The `workflow` sub-object (lines 269-273). -/
structure WorkflowInfo where
  workflow_id : String
  is_final_summary : Bool
  summary_type : Option String
  deriving Repr, DecidableEq

/-- A stored Elasticsearch source object, in the shape
`ingest_documents` writes (lines 251-293).  The `hierarchy` and
`workflow` sub-objects are structured because every read site accesses
them through fixed keys with the defaults baked into this shape; the
`metadata` bag stays an open dict because `/update_status` merges
arbitrary keys into it. -/
structure EsDoc where
  content : String
  embedding : Option EmbVec
  document_type : String
  document_id : String
  ingestion_timestamp : String
  hierarchy : Hierarchy
  workflow : WorkflowInfo
  metadata : PyDict

/-- The Elasticsearch index: id → source, insertion ordered. -/
abbrev Store := List (String × EsDoc)

def storeGet (s : Store) (i : String) : Option EsDoc := alistGet s i

def storePut (s : Store) (i : String) (d : EsDoc) : Store := alistSet s i d

/-- `fastapi.HTTPException(status_code, detail)`. -/
structure HTTPError where
  status_code : Nat
  detail : String
  deriving Repr, DecidableEq

/-- Python truthiness of an `Optional[str]`: `None` and `""` are falsy. -/
def pyTruthyOptStr : Option String → Bool
  | some s => s ≠ ""
  | Option.none => false

/-- Helper for `pyWords`: collect maximal non-whitespace runs (`acc` is
the current run, reversed). -/
def pyWordsAux : List Char → List Char → List String
  | [], acc => if acc.isEmpty then [] else [String.mk acc.reverse]
  | c :: cs, acc =>
    if c.isWhitespace then
      if acc.isEmpty then pyWordsAux cs [] else String.mk acc.reverse :: pyWordsAux cs []
    else pyWordsAux cs (c :: acc)

/-- Python `content.split()`: the maximal whitespace-free runs, in
order, with no empty pieces. -/
def pyWords (content : String) : List String :=
  pyWordsAux content.data []

/-- Helper for `pyCountSubstr`: scan left to right; after a match the
next `needle.length - 1` positions are inside the matched occurrence and
are skipped (`skip` counts them), making the count non-overlapping. -/
def pyCountSubAux (needle : List Char) : Nat → List Char → Nat
  | _, [] => 0
  | 0, c :: cs =>
    if needle.isPrefixOf (c :: cs) then pyCountSubAux needle (needle.length - 1) cs + 1
    else pyCountSubAux needle 0 cs
  | skip + 1, _ :: cs => pyCountSubAux needle skip cs

/-- Python `hay.count(needle)` for a non-empty needle: non-overlapping
occurrences, scanning left to right. -/
def pyCountSubstr (needle hay : String) : Nat :=
  pyCountSubAux needle.data 0 hay.data

/-! ## Document input validation (`DocumentInput`, lines 53-86) -/

/-- Raw request payload for one document of an `/ingest` batch, with the
pydantic field defaults of `DocumentInput` (lines 53-63). -/
structure RawDocumentInput where
  content : String
  metadata : PyDict := []
  document_type : String := "source_document"
  document_id : Option String := Option.none
  parent_id : Option String := Option.none
  hierarchy_level : Int := 0
  workflow_id : Option String := Option.none
  is_final_summary : Bool := false
  summary_type : Option String := Option.none

/-- A validated `DocumentInput` model.  `workflow_id` is a plain string
because the `always=True` validator (lines 65-71) replaces a missing
value with a fresh uuid. -/
structure DocumentInput where
  content : String
  metadata : PyDict := []
  document_type : String := "source_document"
  document_id : Option String := Option.none
  parent_id : Option String := Option.none
  hierarchy_level : Int := 0
  workflow_id : String
  is_final_summary : Bool := false
  summary_type : Option String := Option.none

def validSummaryTypes : List String :=
  ["chunk_summary", "intermediate_summary", "final_summary"]

/-- Pydantic validation of a raw `DocumentInput` payload.  `freshUuid`
stands for `str(uuid.uuid4())`.

Pydantic (v1-style `@validator`s) validates fields in declaration order:
`workflow_id` (line 61), then `is_final_summary` (line 62), then
`summary_type` (line 63).  The `validate_final_summary_type` validator
(lines 81-86) therefore runs while `values` does not yet contain
`summary_type`; it writes `values[summary_type] = final_summary` into
the in-flight dict, but pydantic afterwards validates the
`summary_type` field itself from the raw input and assigns that result
into `values`, overwriting the normalisation.  The net validated model
hence carries the raw `summary_type` (domain-checked by lines 73-79),
regardless of `is_final_summary`. -/
def validateDocumentInput (freshUuid : String) (r : RawDocumentInput) :
    Except String DocumentInput :=
  let wf := match r.workflow_id with
    | some v => v
    | Option.none => freshUuid
  match r.summary_type with
  | Option.none =>
    .ok { content := r.content, metadata := r.metadata,
          document_type := r.document_type, document_id := r.document_id,
          parent_id := r.parent_id, hierarchy_level := r.hierarchy_level,
          workflow_id := wf, is_final_summary := r.is_final_summary,
          summary_type := Option.none }
  | some st =>
    if st ∈ validSummaryTypes then
      .ok { content := r.content, metadata := r.metadata,
            document_type := r.document_type, document_id := r.document_id,
            parent_id := r.parent_id, hierarchy_level := r.hierarchy_level,
            workflow_id := wf, is_final_summary := r.is_final_summary,
            summary_type := some st }
    else
      .error ("summary_type must be one of " ++ String.intercalate ", " validSummaryTypes)

/-! ## The ingestion engine (`ingest_documents`, lines 204-361) -/

/-- Per-workflow entry of the in-request `workflow_validation` map
(lines 227-235). -/
structure WorkflowEntry where
  final_summary_exists : Bool
  document_count : Nat
  deriving Repr, DecidableEq

/-- State threaded through the ingestion loop: the index plus the
accumulators of `ingest_documents`.  `uuidCtr` feeds the uuid oracle
`genId` so that generated ids are deterministic in the embedding. -/
structure IngestState where
  store : Store
  document_ids : List String
  workflow_validation : List (String × WorkflowEntry)
  uuidCtr : Nat

/-- Outcome of one loop iteration: either the updated state, or an
`HTTPException` together with the state at the moment it was raised
(writes already performed persist — Elasticsearch has no transaction
spanning the batch). -/
inductive StepResult where
  | ok (st : IngestState)
  | fail (st : IngestState) (e : HTTPError)

/-- The `metadata` object written for a fresh document (lines 276-292). -/
def ingestMetadata (d : DocumentInput) : PyDict :=
  dictUpdate d.metadata
    [ ("workflow_id", .str d.workflow_id)
    , ("is_final_summary", .bool d.is_final_summary)
    , ("summary_type", match d.summary_type with
        | some s => .str s
        | Option.none => .none)
    , ("processing_status", .str "ready")
    , ("content_stats", .dict
        [ ("char_count", .int d.content.length)
        , ("word_count", .int (pyWords d.content).length)
        , ("paragraph_count", .int (pyCountSubstr "\n\n" d.content + 1)) ])
    , ("tree_metadata", .dict
        [ ("has_children", .bool false)
        , ("has_parent", .bool d.parent_id.isSome)
          -- `"leaf" if doc_input.parent_id else "root"` uses truthiness:
          -- an empty-string parent_id yields "root"
        , ("node_type", .str (if pyTruthyOptStr d.parent_id then "leaf" else "root")) ]) ]

/-- The full source object indexed for a fresh document (lines 251-293). -/
def mkEsDoc (d : DocumentInput) (docId : String) (emb : EmbVec) (now : String) :
    EsDoc :=
  { content := d.content
    embedding := some emb
    document_type := d.document_type
    document_id := docId
    ingestion_timestamp := now
    hierarchy :=
      { level := d.hierarchy_level
        parent_id := d.parent_id
        children_ids := []
        path := []
        is_root := d.parent_id.isNone
        depth_from_root := 0 }
    workflow :=
      { workflow_id := d.workflow_id
        is_final_summary := d.is_final_summary
        summary_type := d.summary_type }
    metadata := ingestMetadata d }

/-- The parent/child backlink update (lines 312-341).  Any failure along
the way (parent absent, malformed tree_metadata) is caught by the
surrounding `except` and merely logged, leaving the store unchanged; the
Elasticsearch write happens only at the end, so a partial local mutation
is never persisted. -/
def updateParentLink (store : Store) (pid childId : String) : Store :=
  match storeGet store pid with
  | Option.none => store
  | some parent =>
    let children := parent.hierarchy.children_ids
    if childId ∈ children then store
    else
      match dictGet parent.metadata "tree_metadata" with
      | some (.dict tm) =>
        let parentUpdated := { parent with
          hierarchy := { parent.hierarchy with children_ids := children ++ [childId] }
          metadata := dictSet parent.metadata "tree_metadata"
            (.dict (dictSet (dictSet tm "has_children" (.bool true))
              "node_type" (.str "branch"))) }
        storePut store pid parentUpdated
      | _ => store

/-- One iteration of the `for doc_input in documents` loop of
`ingest_documents` (lines 217-341). -/
def ingestStep (embed : String → Except String EmbVec) (genId : Nat → String)
    (now : String) (st : IngestState) (d : DocumentInput) : StepResult :=
  let wf := d.workflow_id
  -- lines 218-226: duplicate final-summary check against the batch-local map
  let dup : Bool := match alistGet st.workflow_validation wf with
    | some entry => entry.final_summary_exists && d.is_final_summary
    | Option.none => false
  if dup then
    .fail st ⟨400, "Workflow " ++ wf ++ " already has a final summary"⟩
  else
    -- lines 227-235: create/refresh the workflow entry
    let wv1 := match alistGet st.workflow_validation wf with
      | some _ => st.workflow_validation
      | Option.none =>
        alistSet st.workflow_validation wf ⟨d.is_final_summary, 0⟩
    let wv2 := if d.is_final_summary then
        match alistGet wv1 wf with
        | some e => alistSet wv1 wf { e with final_summary_exists := true }
        | Option.none => wv1
      else wv1
    let wv3 := match alistGet wv2 wf with
      | some e => alistSet wv2 wf { e with document_count := e.document_count + 1 }
      | Option.none => wv2
    -- line 238: `doc_input.document_id or str(uuid.uuid4())` (empty string is falsy)
    let idPair : String × Nat := match d.document_id with
      | some s => if s = "" then (genId st.uuidCtr, st.uuidCtr + 1) else (s, st.uuidCtr)
      | Option.none => (genId st.uuidCtr, st.uuidCtr + 1)
    let docId := idPair.1
    -- lines 240-248: embedding failure raises HTTPException(500) — fatal
    match embed d.content with
    | .error msg =>
      .fail { st with workflow_validation := wv3, uuidCtr := idPair.2 }
        ⟨500, "Failed to generate embeddings: " ++ msg⟩
    | .ok emb =>
      -- lines 295-303: index the document
      let store1 := storePut st.store docId (mkEsDoc d docId emb now)
      -- lines 312-341: best-effort backlink (`if doc_input.parent_id:` — truthiness)
      let store2 := match d.parent_id with
        | some pid => if pid = "" then store1 else updateParentLink store1 pid docId
        | Option.none => store1
      .ok { store := store2, document_ids := st.document_ids ++ [docId],
            workflow_validation := wv3, uuidCtr := idPair.2 }

/-- The `for` loop of `ingest_documents`: stops at the first raised
`HTTPException`, keeping the store state reached so far. -/
def ingestLoop (embed : String → Except String EmbVec) (genId : Nat → String)
    (now : String) : List DocumentInput → IngestState →
    IngestState × Option HTTPError
  | [], st => (st, Option.none)
  | d :: ds, st =>
    match ingestStep embed genId now st d with
    | .ok st' => ingestLoop embed genId now ds st'
    | .fail st' e => (st', some e)

/-- `IngestResponse` (lines 103-107, 343-355): `workflow_summary` carries
per workflow the document count and the final-summary flag. -/
structure IngestResponse where
  documents_processed : Nat
  document_ids : List String
  status : String
  workflow_summary : List (String × WorkflowEntry)

/-- `POST /ingest` (lines 204-361) over a given store.  The store is
returned in all cases: a raised `HTTPException` aborts the request but
does not undo writes already performed. -/
def ingestDocuments (embed : String → Except String EmbVec)
    (genId : Nat → String) (now : String) (docs : List DocumentInput)
    (store : Store) : Store × Except HTTPError IngestResponse :=
  let (st, err) := ingestLoop embed genId now docs ⟨store, [], [], 0⟩
  match err with
  | some e => (st.store, .error e)
  | Option.none =>
    (st.store, .ok { documents_processed := docs.length
                     document_ids := st.document_ids
                     status := "success"
                     workflow_summary := st.workflow_validation })

/-! ## Status updates (`update_processing_status`, lines 663-756) -/

structure StatusUpdateRequest where
  document_id : String
  processing_status : String
  additional_metadata : Option PyDict := Option.none

def validStatuses : List String :=
  ["ready", "processing", "completed", "failed", "final_complete"]

/-- Key guard of the metadata merge (line 708).  Keys of a decoded JSON
object are strings, so the `isinstance(key, str)` conjunct always holds
in this model. -/
def validMetaKey (k : String) : Bool :=
  !("_".data.isPrefixOf k.data) && k.length ≤ 100

/-- `isinstance(value, (str, int, float, bool))` (line 711). -/
def isScalarPyValue : PyValue → Bool
  | .str _ => true
  | .int _ => true
  | .float _ => true
  | .bool _ => true
  | _ => false

/-- Python `str(value)` for the scalar values that reach the length
check on line 711 (the `and` short-circuits for non-scalars). -/
def pyStr : PyValue → String
  | .str s => s
  | .int n => toString n
  | .float r => r
  | .bool b => if b then "True" else "False"
  | .none => "None"
  | .list _ => ""
  | .dict _ => ""

def validMetaValue (v : PyValue) : Bool :=
  isScalarPyValue v && (pyStr v).length ≤ 1000

/-- The merge loop of lines 705-712: conforming entries are assigned
into `status_update`, everything else is skipped. -/
def mergeAdditionalMetadata (statusUpdate : PyDict) (additional : PyDict) :
    PyDict :=
  additional.foldl
    (fun acc kv =>
      if !(validMetaKey kv.1) then acc
      else if validMetaValue kv.2 then dictSet acc kv.1 kv.2
      else acc)
    statusUpdate

/-- The `status_update` object of lines 696-702 (attempt counts from 0,
as in `for attempt in range(max_retries)`). -/
def statusUpdateDict (newStatus ts : String) (prev : PyValue) (attempt : Nat) :
    PyDict :=
  [ ("processing_status", .str newStatus)
  , ("last_updated", .str ts)
  , ("previous_status", prev)
  , ("update_attempt", .int (attempt + 1))
  , ("status_transition_" ++ newStatus, .str ts) ]

structure StatusUpdateResponse where
  status : String
  document_id : String
  previous_status : PyValue
  new_status : String
  updated_at : String
  attempt : Nat

/-- `POST /update_status` (lines 663-756).  The optimistic-locking retry
loop is modelled at its sequential fixed point: with no concurrent
writer the conditional write of attempt 0 succeeds, which is the only
behaviour expressible over a single-threaded store.  A missing document
makes `es_client.get` raise; that exception is not a version conflict,
so it is re-raised and the outer handler wraps it as a 500. -/
def updateProcessingStatus (store : Store) (req : StatusUpdateRequest)
    (now : String) : Store × Except HTTPError StatusUpdateResponse :=
  if req.processing_status ∉ validStatuses then
    (store, .error ⟨400, "Invalid processing_status " ++ req.processing_status⟩)
  else
    match storeGet store req.document_id with
    | Option.none =>
      (store, .error ⟨500, "Status update failed: document not found"⟩)
    | some doc =>
      let prev := (dictGet doc.metadata "processing_status").getD (.str "unknown")
      let statusUpdate := statusUpdateDict req.processing_status now prev 0
      let merged := match req.additional_metadata with
        | some add => mergeAdditionalMetadata statusUpdate add
        | Option.none => statusUpdate
      let newMeta := dictUpdate doc.metadata merged
      let storeUpdated := storePut store req.document_id { doc with metadata := newMeta }
      (storeUpdated,
       .ok { status := "updated", document_id := req.document_id,
             previous_status := prev, new_status := req.processing_status,
             updated_at := now, attempt := 1 })

/-! ## Stage queries (`get_documents_by_stage`, lines 564-660) -/

structure StageRequest where
  stage_type : String
  hierarchy_level : Int := 0
  limit : Nat := 50

/-- One entry of `stage_mapping` (lines 575-591): an optional
`document_type` filter and a required `processing_status` filter. -/
structure StageCriteria where
  document_type : Option String
  processing_status : String

def stageMapping : List (String × StageCriteria) :=
  [ ("ready_chunk", ⟨some "source_document", "uploaded"⟩)
  , ("ready_summarize", ⟨some "chunk", "ready"⟩)
  , ("ready_aggregate", ⟨some "chunk_summary", "completed"⟩)
  , ("completed", ⟨Option.none, "final_complete"⟩) ]

/-- An Elasticsearch `term` filter on `metadata.processing_status`:
matches when the stored value is exactly the given string. -/
def pyValueIsStr (v : Option PyValue) (s : String) : Bool :=
  match v with
  | some (.str t) => t = s
  | _ => false

def matchesStage (criteria : StageCriteria) (hierLevel : Int) (doc : EsDoc) :
    Bool :=
  (match criteria.document_type with
   | some dt => doc.document_type = dt
   | Option.none => true)
  && pyValueIsStr (dictGet doc.metadata "processing_status") criteria.processing_status
  && (if hierLevel > 0 then doc.hierarchy.level = hierLevel else true)

/-- Sort key of the stage query (lines 626-629): ingestion timestamp
ascending, then hierarchy level ascending. -/
def stageSortLe (a b : String × EsDoc) : Bool :=
  a.2.ingestion_timestamp < b.2.ingestion_timestamp ||
    (a.2.ingestion_timestamp = b.2.ingestion_timestamp
      && a.2.hierarchy.level ≤ b.2.hierarchy.level)

structure StageDocEntry where
  id : String
  content : String
  document_type : String
  hierarchy_level : Int
  processing_status : PyValue
  metadata : PyDict
  workflow : WorkflowInfo

structure StageResponse where
  documents : List StageDocEntry
  total_found : Nat
  stage_type : String
  hierarchy_level : String

/-- The `try` body of `get_documents_by_stage` (lines 570-656). -/
def getDocumentsByStageBody (store : Store) (req : StageRequest) :
    Except HTTPError StageResponse :=
  match alistGet stageMapping req.stage_type with
  | Option.none => .error ⟨400, "Invalid stage_type: " ++ req.stage_type⟩
  | some criteria =>
    let hitsSorted :=
      (store.filter (fun p => matchesStage criteria req.hierarchy_level p.2)).mergeSort
        stageSortLe
    let hits := hitsSorted.take req.limit
    let docs := hits.map (fun p =>
      ({ id := p.2.document_id
         content := p.2.content
         document_type := p.2.document_type
         hierarchy_level := p.2.hierarchy.level
         processing_status := (dictGet p.2.metadata "processing_status").getD (.str "unknown")
         metadata := p.2.metadata
         workflow := p.2.workflow } : StageDocEntry))
    .ok { documents := docs
          total_found := docs.length
          stage_type := req.stage_type
          hierarchy_level := if req.hierarchy_level > 0 then toString req.hierarchy_level else "all" }

/-- `POST /get_by_stage` (lines 564-660).  Unlike every other endpoint of
this service, the handler has no `except HTTPException: raise` clause, so
its blanket `except Exception` (lines 658-660) also catches the
`HTTPException(400)` raised on line 594 and re-wraps it as a 500 with
detail `"Query failed: " + str(e)`, where `str` of a starlette
`HTTPException` renders as `"<status_code>: <detail>"`. -/
def getDocumentsByStage (store : Store) (req : StageRequest) :
    Except HTTPError StageResponse :=
  match getDocumentsByStageBody store req with
  | .error e =>
    .error ⟨500, "Query failed: " ++ toString e.status_code ++ ": " ++ e.detail⟩
  | .ok r => .ok r

/-! ## Whole-tree reconstruction (`get_complete_tree`, lines 1152-1338) -/

/-- `s[:n] + "..." if len(s) > n else s` (previews throughout the
file); the slice is taken on the character list. -/
def pyPreview (n : Nat) (s : String) : String :=
  if s.length > n then String.mk (s.data.take n) ++ "..." else s

/-- The scalar payload of a `TreeNode` (lines 1097-1120), children kept
apart so the tree type can recurse. -/
structure TreeNodeInfo where
  document_id : String
  content : Option String
  content_preview : String
  content_length : Nat
  document_type : String
  summary_type : Option String
  hierarchy_level : Int
  processing_status : PyValue
  metadata : PyDict
  has_children : Bool
  is_expanded : Bool
  parent_id : Option String
  is_root : Bool
  is_leaf : Bool

/-- Recursive UI tree node. -/
inductive TreeNode where
  | mk (info : TreeNodeInfo) (children : List TreeNode)

def TreeNode.info : TreeNode → TreeNodeInfo
  | .mk i _ => i

def TreeNode.children : TreeNode → List TreeNode
  | .mk _ c => c

/-- One value of the `doc_map` dict (lines 1200-1211). -/
structure DocMapEntry where
  doc : EsDoc
  children : List String
  processed : Bool

abbrev DocMap := List (String × DocMapEntry)

/-- Lines 1204-1211: build the id → entry map in hit order. -/
def buildDocMap (hits : List EsDoc) : DocMap :=
  hits.foldl (fun m doc => alistSet m doc.document_id ⟨doc, [], false⟩) []

/-- Lines 1213-1216: root ids, in hit order, are documents with a null
`parent_id`. -/
def rootNodes (hits : List EsDoc) : List String :=
  (hits.filter (fun doc => doc.hierarchy.parent_id = Option.none)).map
    (fun doc => doc.document_id)

/-- Lines 1219-1225: the parent → children adjacency, built from each
node's own `parent_id` (`if parent_id and parent_id in doc_map` — Python
truthiness makes an empty-string parent_id skip the link). -/
def addChildLinks (m : DocMap) : DocMap :=
  m.foldl
    (fun acc p =>
      match p.2.doc.hierarchy.parent_id with
      | some pid =>
        if pid = "" then acc
        else
          match alistGet acc pid with
          | some pe => alistSet acc pid { pe with children := pe.children ++ [p.1] }
          | Option.none => acc
      | Option.none => acc)
    m

/-- `build_tree_node` (lines 1227-1280), with the mutable `doc_map`
threaded explicitly.  The Python recursion is bounded by
`current_depth`: recursive calls happen only under
`current_depth < max_depth`.  The embedding recurses on a fuel argument
kept at `max_depth + 1 - current_depth`; when the fuel hits 0 the
current depth exceeds `max_depth`, which is exactly the case where the
guard on line 1233 returns `None`, so the sentinel branch coincides with
the source's behaviour. -/
def buildTreeNode (includeContent : Bool) (maxDepth : Nat) :
    Nat → Nat → String → DocMap → Option TreeNode × DocMap
  | 0, _, _, m => (Option.none, m)
  | fuel + 1, currentDepth, docId, m =>
    match alistGet m docId with
    | Option.none => (Option.none, m)
    | some entry =>
      if currentDepth > maxDepth then (Option.none, m)
      else if entry.processed then (Option.none, m)
      else
        let m1 := alistSet m docId { entry with processed := true }
        let doc := entry.doc
        let content := doc.content
        let childState :=
          if currentDepth < maxDepth then
            entry.children.foldl
              (fun (acc : List TreeNode × DocMap) childId =>
                let r := buildTreeNode includeContent maxDepth fuel
                  (currentDepth + 1) childId acc.2
                match r.1 with
                | some n => (acc.1 ++ [n], r.2)
                | Option.none => (acc.1, r.2))
              (([] : List TreeNode), m1)
          else (([] : List TreeNode), m1)
        let info : TreeNodeInfo :=
          { document_id := docId
            content := if includeContent then some content else Option.none
            content_preview := pyPreview 200 content
            content_length := content.length
            document_type := doc.document_type
            summary_type := doc.workflow.summary_type
            hierarchy_level := doc.hierarchy.level
            processing_status := (dictGet doc.metadata "processing_status").getD (.str "unknown")
            metadata :=
              [ ("created_at", (dictGet doc.metadata "created_at").getD .none)
              , ("updated_at", (dictGet doc.metadata "updated_at").getD .none)
              , ("word_count", (match dictGet doc.metadata "content_stats" with
                  | some (.dict cs) => (dictGet cs "word_count").getD (.int 0)
                  | _ => .int 0))
              , ("is_final_summary", .bool doc.workflow.is_final_summary) ]
            has_children := entry.children.length > 0
            is_expanded := currentDepth < 2
            parent_id := doc.hierarchy.parent_id
            is_root := doc.hierarchy.parent_id.isNone
            is_leaf := entry.children.length = 0 }
        (some (.mk info childState.1), childState.2)

mutual

/-- `calculate_tree_stats` (lines 1294-1302), restricted to the depth
component (the `node_type_counts` tally it also keeps is not read by any
verified property).  Computes the maximum `depth` value visited over a
node and its descendants, the node itself sitting at `depth`. -/
def treeMaxDepth : TreeNode → Nat → Nat
  | .mk _ children, depth => forestDepthFold children (depth + 1) depth

/-- The `for child in node.children` recursion of
`calculate_tree_stats`, with `acc` the running `max_actual_depth`. -/
def forestDepthFold : List TreeNode → Nat → Nat → Nat
  | [], _, acc => acc
  | t :: ts, depth, acc => forestDepthFold ts depth (max acc (treeMaxDepth t depth))

end

/-- The `for tree in trees: calculate_tree_stats(tree)` fold, starting
from `max_actual_depth = 0` (lines 1291, 1304-1305). -/
def forestMaxDepth (trees : List TreeNode) : Nat :=
  trees.foldl (fun acc t => max acc (treeMaxDepth t 0)) 0

structure TreeMetadata where
  total_nodes : Nat
  root_count : Nat
  max_depth_found : Nat
  max_depth_returned : Nat
  truncated : Bool

structure QueryMetadata where
  workflow_id : String
  max_depth_requested : Nat
  include_content : Bool
  nodes_returned : Nat

structure CompleteTreeResponse where
  workflow_id : String
  tree : List TreeNode
  tree_metadata : TreeMetadata
  query_metadata : QueryMetadata
  status : String

/-- Lines 1181-1192: all documents of a workflow, in index order. -/
def workflowHits (store : Store) (wid : String) : List EsDoc :=
  (store.filter (fun p => p.2.workflow.workflow_id = wid)).map (fun p => p.2)

/-- `GET /get_complete_tree/{workflow_id}` (lines 1152-1338).
`node_type_distribution` is the only response field not carried over
(see `treeMaxDepth`). -/
def getCompleteTree (store : Store) (workflowId : String) (maxDepth : Nat)
    (includeContent : Bool) : Except HTTPError CompleteTreeResponse :=
  let hits := workflowHits store workflowId
  if hits.isEmpty then
    .error ⟨404, "No documents found for workflow_id: " ++ workflowId⟩
  else
    let m0 := addChildLinks (buildDocMap hits)
    let roots := rootNodes hits
    let built := roots.foldl
      (fun (acc : List TreeNode × DocMap) rootId =>
        let r := buildTreeNode includeContent maxDepth (maxDepth + 1) 0 rootId acc.2
        match r.1 with
        | some t => (acc.1 ++ [t], r.2)
        | Option.none => (acc.1, r.2))
      (([] : List TreeNode), m0)
    let trees := built.1
    let mFinal := built.2
    let maxActualDepth := forestMaxDepth trees
    .ok { workflow_id := workflowId
          tree := trees
          tree_metadata :=
            { total_nodes := mFinal.length
              root_count := trees.length
              max_depth_found := maxActualDepth
              max_depth_returned := min maxActualDepth maxDepth
              truncated := maxActualDepth > maxDepth }
          query_metadata :=
            { workflow_id := workflowId
              max_depth_requested := maxDepth
              include_content := includeContent
              nodes_returned := (mFinal.filter (fun p => p.2.processed)).length }
          status := "success" }

/-! ## Document context (`get_document_with_context`, lines 1398-1598) -/

/-- One breadcrumb entry (lines 1341-1346, 1472-1477). -/
structure BreadcrumbItem where
  document_id : String
  content_preview : String
  document_type : String
  hierarchy_level : Int
  deriving Repr, DecidableEq

/-- One sibling entry (lines 1349-1355, 1532-1538). -/
structure DocumentContextInfo where
  document_id : String
  content_preview : String
  document_type : String
  processing_status : PyValue
  position : Nat

/-- The `while current_id:` breadcrumb loop (lines 1450-1485), with the
visited set, the accumulator, and the moving cursor made explicit.  The
Python loop has no syntactic bound, so the embedding carries fuel; the
sentinel `none` marks fuel exhaustion.  Claim C5 proves that
`store.length + 2` fuel always suffices — the visited-set guard stops
the loop on any cycle — so the sentinel is unreachable from
`breadcrumbPath` below.  Notes kept from the source: `while current_id`
uses truthiness (an empty-string id ends the loop); for
`current_id == document_id` the already-fetched `main_doc` is reused; a
failed ancestor fetch logs a warning and breaks. -/
def breadcrumbLoop (store : Store) (documentId : String) (mainDoc : EsDoc) :
    Nat → Option String → List String → List BreadcrumbItem →
    Option (List BreadcrumbItem)
  | 0, _, _, _ => Option.none
  | fuel + 1, current, visited, acc =>
    match current with
    | Option.none => some acc
    | some cid =>
      if cid = "" then some acc
      else if cid ∈ visited then some acc
      else
        match (if cid = documentId then some mainDoc else storeGet store cid) with
        | Option.none => some acc
        | some pathDoc =>
          let item : BreadcrumbItem :=
            { document_id := cid
              content_preview := pyPreview 100 pathDoc.content
              document_type := pathDoc.document_type
              hierarchy_level := pathDoc.hierarchy.level }
          breadcrumbLoop store documentId mainDoc fuel
            pathDoc.hierarchy.parent_id (cid :: visited) (acc ++ [item])

/-- Lines 1450-1488: run the loop from the target and reverse, so that
index 0 is the root and the last entry the target. -/
def breadcrumbPath (store : Store) (documentId : String) (mainDoc : EsDoc) :
    Option (List BreadcrumbItem) :=
  (breadcrumbLoop store documentId mainDoc (store.length + 2)
    (some documentId) [] []).map List.reverse

/-- The sibling block (lines 1490-1545): `(siblings, sibling_position,
total_siblings)`.  The `terms` query on `document_id` is modelled as the
id lookup it amounts to for documents written by this service (which
indexes each document under its own `document_id`).  Any exception —
e.g. the parent fetch failing — leaves all three results `None`. -/
def siblingSection (store : Store) (documentId : String)
    (hierarchy : Hierarchy) (includeSiblings : Bool) :
    Option (List DocumentContextInfo) × Option Nat × Option Nat :=
  if includeSiblings && pyTruthyOptStr hierarchy.parent_id then
    match hierarchy.parent_id with
    | some pid =>
      match storeGet store pid with
      | Option.none => (Option.none, Option.none, Option.none)
      | some parentDoc =>
        let siblingIds := parentDoc.hierarchy.children_ids
        if siblingIds.isEmpty then (Option.none, Option.none, Option.none)
        else
          -- lines 1524-1539: iterate children_ids in stored order; the
          -- queried document is NOT skipped — it is appended like any
          -- other found sibling, after recording its position
          let folded := siblingIds.enum.foldl
            (fun (acc : List DocumentContextInfo × Option Nat) ip =>
              match storeGet store ip.2 with
              | Option.none => acc
              | some sdoc =>
                let pos := if ip.2 = documentId then some ip.1 else acc.2
                (acc.1 ++
                  [{ document_id := ip.2
                     content_preview := pyPreview 200 sdoc.content
                     document_type := sdoc.document_type
                     processing_status :=
                       (dictGet sdoc.metadata "processing_status").getD (.str "unknown")
                     position := ip.1 }], pos))
            (([] : List DocumentContextInfo), (Option.none : Option Nat))
          (some folded.1, folded.2, some folded.1.length)
    | Option.none => (Option.none, Option.none, Option.none)
  else (Option.none, Option.none, Option.none)

/-- `DocumentContentResponse` (lines 1358-1395).  `query_time_ms`
(wall-clock timing) is not modelled. -/
structure DocumentContentResponse where
  document_id : String
  content : String
  content_preview : String
  content_length : Nat
  document_type : String
  summary_type : Option String
  processing_status : PyValue
  metadata : PyDict
  hierarchy_level : Int
  parent_id : Option String
  children_ids : List String
  has_parent : Bool
  has_children : Bool
  is_root : Bool
  is_leaf : Bool
  breadcrumb_path : List BreadcrumbItem
  siblings : Option (List DocumentContextInfo)
  sibling_position : Option Nat
  total_siblings : Option Nat
  workflow_id : String
  is_final_summary : Bool
  status : String

/-- `GET /get_document_with_context/{document_id}` (lines 1398-1598).
The `getD []` on the breadcrumb discharges the fuel sentinel, which
claim C5 shows unreachable. -/
def getDocumentWithContext (store : Store) (documentId : String)
    (includeFullContent includeSiblings : Bool) :
    Except HTTPError DocumentContentResponse :=
  match storeGet store documentId with
  | Option.none => .error ⟨404, "Document not found: " ++ documentId⟩
  | some mainDoc =>
    let content := mainDoc.content
    let hierarchy := mainDoc.hierarchy
    let metadata := mainDoc.metadata
    let workflow := mainDoc.workflow
    let breadcrumbs := (breadcrumbPath store documentId mainDoc).getD []
    let sibs := siblingSection store documentId hierarchy includeSiblings
    let hasParent := hierarchy.parent_id.isSome
    let hasChildren := hierarchy.children_ids ≠ []
    .ok { document_id := documentId
          content := if includeFullContent then content else ""
          content_preview := pyPreview 500 content
          content_length := content.length
          document_type := mainDoc.document_type
          summary_type := workflow.summary_type
          processing_status := (dictGet metadata "processing_status").getD (.str "unknown")
          metadata :=
            [ ("created_at", (dictGet metadata "created_at").getD .none)
            , ("updated_at", (dictGet metadata "updated_at").getD .none)
            , ("last_updated", (dictGet metadata "last_updated").getD .none)
            , ("content_stats", (dictGet metadata "content_stats").getD (.dict []))
            , ("tree_metadata", (dictGet metadata "tree_metadata").getD (.dict [])) ]
          hierarchy_level := hierarchy.level
          parent_id := hierarchy.parent_id
          children_ids := hierarchy.children_ids
          has_parent := hasParent
          has_children := hasChildren
          is_root := !hasParent
          is_leaf := !hasChildren
          breadcrumb_path := breadcrumbs
          siblings := sibs.1
          sibling_position := sibs.2.1
          total_siblings := sibs.2.2
          workflow_id := workflow.workflow_id
          is_final_summary := workflow.is_final_summary
          status := "success" }

/-! ## Single-document import (`haystack_service.py`, `import_document`,
lines 174-271) — referenced by the embedding-failure claim. -/

/-- `ImportDocumentInput` (`haystack_service.py` lines 62-71). -/
structure ImportDocumentInput where
  content : String
  summary : String := ""
  document_id : String
  parent_id : Option String := Option.none
  children_ids : List String := []
  hierarchy_level : Int := 0
  workflow_id : String
  metadata : PyDict := []
  generate_embeddings : Bool := true

structure ImportHierarchy where
  level : Int
  parent_id : Option String
  children_ids : List String
  is_root : Bool
  is_leaf : Bool

structure ImportWorkflowInfo where
  workflow_id : String
  import_source : String
  is_final_summary : Bool

/-- The source object written by `/import_from_node`
(`haystack_service.py` lines 204-243): the embedding key is present only
when generation succeeded. -/
structure ImportEsDoc where
  content : String
  summary : String
  document_id : String
  import_timestamp : String
  is_final_summary : Bool
  hierarchy : ImportHierarchy
  workflow : ImportWorkflowInfo
  metadata : PyDict
  embedding : Option EmbVec

structure ImportResponse where
  document_id : String
  status : String
  embeddings_generated : Bool
  content_indexed : Bool
  deriving Repr, DecidableEq

abbrev ImportStore := List (String × ImportEsDoc)

/-- `POST /import_from_node` (`haystack_service.py` lines 174-271) with
the embedding model loaded (the `embedding_model` truthiness conjunct of
line 189 held).  An `encode` failure logs a warning and the document
proceeds without an embedding (lines 190-194); the store write is
unconditional and the request succeeds. -/
def importDocument (embed : String → Except String EmbVec) (now : String)
    (store : ImportStore) (d : ImportDocumentInput) :
    ImportStore × Except HTTPError ImportResponse :=
  -- line 183: prefer the summary for indexing when it is non-empty
  let contentToIndex := if d.summary ≠ "" then d.summary else d.content
  let embPair : Option EmbVec × Bool :=
    if d.generate_embeddings && contentToIndex ≠ "" then
      match embed contentToIndex with
      | .ok e => (some e, true)
      | .error _ => (Option.none, false)
    else (Option.none, false)
  let isFinal := d.children_ids.isEmpty && decide (d.hierarchy_level ≥ 2)
    && d.summary ≠ ""
  let esDoc : ImportEsDoc :=
    { content := d.content
      summary := d.summary
      document_id := d.document_id
      import_timestamp := now
      is_final_summary := isFinal
      hierarchy :=
        { level := d.hierarchy_level
          parent_id := d.parent_id
          children_ids := d.children_ids
          is_root := d.parent_id.isNone
          is_leaf := d.children_ids.isEmpty }
      workflow :=
        { workflow_id := d.workflow_id
          import_source := "hierarchical_summarization"
          is_final_summary := isFinal }
      metadata := dictUpdate d.metadata
        [ ("content_stats", .dict
            [ ("content_length", .int d.content.length)
            , ("summary_length", .int d.summary.length)
            , ("has_summary", .bool (d.summary ≠ "")) ]) ]
      embedding := embPair.1 }
  (alistSet store d.document_id esDoc,
   .ok { document_id := d.document_id
         status := "success"
         embeddings_generated := embPair.2
         content_indexed := true })

/-! ## Concrete fixtures

Small hand-written inputs used by counterexamples and witnesses.  Stored
documents follow exactly the shape `ingest_documents` writes (cf.
`mkEsDoc`); they are written out directly so that closed evaluations
reduce quickly. -/

/-- An embedding oracle that always succeeds. -/
def embedOk : String → Except String EmbVec := fun _ => .ok []

/-- An embedding oracle that always fails (provider outage). -/
def embedFail : String → Except String EmbVec := fun _ => .error "model offline"

/-- A deterministic uuid oracle. -/
def genIdEx : Nat → String := fun n => "gen-" ++ toString n

def exHier (lvl : Int) (pid : Option String) (cids : List String) : Hierarchy :=
  { level := lvl, parent_id := pid, children_ids := cids, path := [],
    is_root := pid.isNone, depth_from_root := 0 }

def exStoredDoc (i : String) (lvl : Int) (pid : Option String)
    (cids : List String) : EsDoc :=
  { content := "content of " ++ i, embedding := some [], document_type := "t",
    document_id := i, ingestion_timestamp := "t0",
    hierarchy := exHier lvl pid cids,
    workflow := { workflow_id := "W", is_final_summary := false,
                  summary_type := Option.none },
    metadata := [("processing_status", .str "ready")] }

/-- A three-level chain a → b → c of workflow W. -/
def exChainStore : Store :=
  [ ("a", exStoredDoc "a" 0 Option.none ["b"])
  , ("b", exStoredDoc "b" 1 (some "a") ["c"])
  , ("c", exStoredDoc "c" 2 (some "b") []) ]

/-- A parent with two children, the scenario of
`test_tree_navigation.py` (final summary with two intermediates). -/
def exSiblingStore : Store :=
  [ ("final", exStoredDoc "final" 0 Option.none ["inter1", "inter2"])
  , ("inter1", exStoredDoc "inter1" 1 (some "final") [])
  , ("inter2", exStoredDoc "inter2" 1 (some "final") []) ]

/-- Two documents whose parent pointers form a cycle (no root). -/
def exCycleStore : Store :=
  [ ("x", exStoredDoc "x" 0 (some "y") ["y"])
  , ("y", exStoredDoc "y" 1 (some "x") ["x"]) ]

def exFinalRawA : RawDocumentInput :=
  { content := "summary a", workflow_id := some "W", document_id := some "a",
    is_final_summary := true }

def exFinalDocA : DocumentInput :=
  { content := "summary a", workflow_id := "W", document_id := some "a",
    is_final_summary := true }

def exFinalDocB : DocumentInput :=
  { content := "summary b", workflow_id := "W", document_id := some "b",
    is_final_summary := true }

/-! ## Claim C1 — batch rejection on duplicate final summary -/

/-- C1, counterexample.  Ingesting two final summaries of workflow `W`
in one batch is rejected with the 400 validation error, but the first
final summary of that same workflow has already been written to the
store when the exception is raised: the claimed "no node of that
workflow is written" fails. -/
theorem C1_counterexample :
    (ingestDocuments embedOk genIdEx "t0" [exFinalDocA, exFinalDocB] []).2
        = .error ⟨400, "Workflow W already has a final summary"⟩
    ∧ ((storeGet (ingestDocuments embedOk genIdEx "t0" [exFinalDocA, exFinalDocB] []).1 "a").map
        (fun d => d.workflow.workflow_id)) = some "W" :=
  ⟨rfl, rfl⟩

/-! ## Claim C2 — depth limiting and the `truncated` flag -/

/-- C2, counterexample.  On the chain a → b → c with `max_depth = 1`,
the grandchild c is omitted as claimed, but `truncated` is `false` even
though the true depth (2, as the same endpoint reports for
`max_depth = 10`) exceeds the requested depth: `truncated` is computed
from the already-capped returned tree, so it can never be `true`. -/
theorem C2_counterexample :
    (getCompleteTree exChainStore "W" 1 false).map
        (fun r => (r.tree_metadata.truncated, r.tree_metadata.max_depth_found))
      = .ok (false, 1)
    ∧ (getCompleteTree exChainStore "W" 10 false).map
        (fun r => (r.tree_metadata.truncated, r.tree_metadata.max_depth_found))
      = .ok (false, 2) :=
  ⟨rfl, rfl⟩

/-! ## Claim C3 — sibling resolution includes the queried document -/

/-- C3.  For `inter1`, one of two children of `final` (the scenario of
`test_tree_navigation.py`, whose assertion expects exactly 1 sibling),
the sibling list contains *both* children including the queried document
itself — the loop records the target position but never skips the
target — so n children yield n entries, not n−1.  Positions and
`total_siblings` count the full children list. -/
theorem C3_self_in_siblings :
    (getDocumentWithContext exSiblingStore "inter1" true true).map
        (fun r => ((r.siblings.map (fun l => l.map (fun s => (s.document_id, s.position)))),
                   r.sibling_position, r.total_siblings))
      = .ok (some [("inter1", 0), ("inter2", 1)], some 0, some 2) :=
  rfl

/-! ## Claim C6 — embedding failure during batch ingest is fatal -/

/-- C6, counterexample.  With the embedding provider failing, batch
ingest of a single document aborts the whole request with a 500 server
error and stores nothing: the embedding failure is fatal, not the
claimed non-fatal degradation. -/
theorem C6_counterexample :
    (ingestDocuments embedFail genIdEx "t0" [exFinalDocA] []).1 = []
    ∧ (ingestDocuments embedFail genIdEx "t0" [exFinalDocA] []).2
        = .error ⟨500, "Failed to generate embeddings: model offline"⟩ :=
  ⟨rfl, rfl⟩

/-! ## Claim C8 — `is_final_summary` does not imply `summary_type` -/

/-- C8.  Validating a document with `is_final_summary = true` and no
`summary_type` yields `summary_type = None`, not `final_summary`: the
normalising validator runs before the `summary_type` field is validated
and its write into `values` is overwritten (see
`validateDocumentInput`).  The stored workflow sub-object then also
carries `summary_type = None`.  The other two validation behaviours the
claim states do hold: an out-of-domain `summary_type` is rejected, and a
missing `workflow_id` is auto-generated. -/
theorem C8_summary_type_not_normalised :
    (validateDocumentInput "u0" exFinalRawA).map
        (fun m => (m.is_final_summary, m.summary_type)) = .ok (true, Option.none)
    ∧ validateDocumentInput "u0" exFinalRawA = .ok exFinalDocA
    ∧ ((storeGet (ingestDocuments embedOk genIdEx "t0" [exFinalDocA] []).1 "a").map
        (fun d => (d.workflow.is_final_summary, d.workflow.summary_type)))
        = some (true, Option.none)
    ∧ (validateDocumentInput "u0"
        { content := "x", summary_type := some "bogus" }).isOk = false
    ∧ (validateDocumentInput "u1" { content := "x" }).map (fun m => m.workflow_id)
        = .ok "u1" :=
  ⟨rfl, rfl, rfl, rfl, rfl⟩

/-! ## Claim C9 — unknown stage_type surfaces as 500, not 400 -/

/-- C9.  The body of `get_documents_by_stage` raises the intended 400
for an unknown `stage_type`, but the handler lacks the
`except HTTPException: raise` clause every other endpoint has, so the
blanket `except Exception` re-wraps the 400 into a 500 server error:
callers cannot branch on a client validation error. -/
theorem C9_stage_validation_wrapped_as_500 :
    getDocumentsByStageBody [] { stage_type := "bogus" }
        = .error ⟨400, "Invalid stage_type: bogus"⟩
    ∧ getDocumentsByStage [] { stage_type := "bogus" }
        = .error ⟨500, "Query failed: 400: Invalid stage_type: bogus"⟩ :=
  ⟨rfl, rfl⟩

/-! ## Claims C4 and C5 — breadcrumb correctness and cycle-safe termination -/

theorem alistGet_isSome_mem {α : Type} (l : List (String × α)) (k : String)
    (h : (alistGet l k).isSome) : k ∈ l.map Prod.fst := by
  induction l with
  | nil => simp [alistGet] at h
  | cons p ps ih =>
    rw [List.map_cons]
    by_cases hp : p.1 = k
    · exact hp ▸ List.mem_cons_self _ _
    · simp only [alistGet, if_neg hp] at h
      exact List.mem_cons_of_mem _ (ih h)

/-- Number of store keys not yet visited: the decreasing measure of the
breadcrumb loop. -/
def unvisitedCount (store : Store) (visited : List String) : Nat :=
  ((store.map Prod.fst).toFinset \ visited.toFinset).card

theorem unvisitedCount_cons_le (store : Store) (visited : List String)
    (c : String) :
    unvisitedCount store (c :: visited) ≤ unvisitedCount store visited := by
  apply Finset.card_le_card
  apply Finset.sdiff_subset_sdiff (Finset.Subset.refl _)
  rw [List.toFinset_cons]
  exact Finset.subset_insert _ _

theorem unvisitedCount_cons_lt (store : Store) (visited : List String)
    (c : String) (hmem : c ∈ store.map Prod.fst) (hnv : c ∉ visited) :
    unvisitedCount store (c :: visited) < unvisitedCount store visited := by
  unfold unvisitedCount
  have hset : (store.map Prod.fst).toFinset \ (c :: visited).toFinset
      = ((store.map Prod.fst).toFinset \ visited.toFinset).erase c := by
    ext x
    simp only [List.toFinset_cons, Finset.mem_sdiff, Finset.mem_erase,
      Finset.mem_insert, List.mem_toFinset]
    tauto
  rw [hset]
  apply Finset.card_erase_lt_of_mem
  simp only [Finset.mem_sdiff, List.mem_toFinset]
  exact ⟨hmem, hnv⟩

/-- Every configuration of the breadcrumb loop completes within
`unvisitedCount + 2` steps: each continuing iteration either reuses
`main_doc` (possible exactly once, for the target id) or consumes an
unvisited store key.  This holds for arbitrary parent links, cyclic ones
included — the visited-set guard is what makes the measure work. -/
theorem breadcrumbLoop_isSome (store : Store) (docId : String)
    (mainDoc : EsDoc) :
    ∀ (fuel : Nat) (current : Option String) (visited : List String)
      (acc : List BreadcrumbItem),
      unvisitedCount store visited + (if docId ∈ visited then 1 else 2) ≤ fuel →
      (breadcrumbLoop store docId mainDoc fuel current visited acc).isSome := by
  intro fuel
  induction fuel with
  | zero =>
    intro current visited acc h
    by_cases hd : docId ∈ visited <;> simp [hd] at h
  | succ n ih =>
    intro current visited acc h
    cases current with
    | none => simp [breadcrumbLoop]
    | some cid =>
      by_cases h1 : cid = ""
      · simp [breadcrumbLoop, h1]
      · by_cases h2 : cid ∈ visited
        · simp [breadcrumbLoop, h1, h2]
        · by_cases h3 : cid = docId
          · simp only [breadcrumbLoop, if_neg h1, if_neg h2, if_pos h3]
            apply ih
            have hle := unvisitedCount_cons_le store visited cid
            have hd2 : docId ∉ visited := by
              rw [← h3]
              exact h2
            have hmem : docId ∈ cid :: visited := by
              rw [← h3]
              exact List.mem_cons_self _ _
            rw [if_pos hmem]
            rw [if_neg hd2] at h
            omega
          · cases hg : storeGet store cid with
            | none =>
              simp [breadcrumbLoop, h1, h2, h3, hg]
            | some pathDoc =>
              simp only [breadcrumbLoop, if_neg h1, if_neg h2, if_neg h3, hg]
              apply ih
              have hlt := unvisitedCount_cons_lt store visited cid
                (alistGet_isSome_mem store cid (by
                  rw [show alistGet store cid = storeGet store cid from rfl, hg]
                  rfl)) h2
              have hiff : (docId ∈ cid :: visited) ↔ (docId ∈ visited) := by
                constructor
                · intro hc
                  rcases List.mem_cons.mp hc with hh | hh
                  · exact absurd hh.symm h3
                  · exact hh
                · intro hc
                  exact List.mem_cons_of_mem _ hc
              by_cases hd : docId ∈ visited
              · rw [if_pos (hiff.mpr hd)]
                rw [if_pos hd] at h
                omega
              · rw [if_neg (fun hc => hd (hiff.mp hc))]
                rw [if_neg hd] at h
                omega

/-- Beyond the depth bound the builder returns `None` and leaves the map
untouched, whatever the fuel: this is the guard of line 1233, and with
zero fuel the sentinel branch coincides with it. -/
theorem buildTreeNode_depth_exceeded (ic : Bool) (maxD : Nat) (fuel cd : Nat)
    (docId : String) (m : DocMap) (h : maxD < cd) :
    buildTreeNode ic maxD fuel cd docId m = (Option.none, m) := by
  cases fuel with
  | zero => rfl
  | succ n =>
    simp only [buildTreeNode]
    cases alistGet m docId with
    | none => rfl
    | some e => simp [h]

/-- Fuel irrelevance: any fuel of at least `maxDepth + 1 - currentDepth`
yields the same result, so `getCompleteTree`, which calls the builder
with fuel `maxDepth + 1` at depth 0, computes the fuel-independent
fixpoint of the source recursion — the embedded recursion terminates at
exactly the depth bound the Python recursion enforces. -/
theorem buildTreeNode_fuel_irrel (ic : Bool) (maxD : Nat) :
    ∀ (f g cd : Nat) (docId : String) (m : DocMap),
      maxD + 1 - cd ≤ f → maxD + 1 - cd ≤ g →
      buildTreeNode ic maxD f cd docId m = buildTreeNode ic maxD g cd docId m := by
  intro f
  induction f with
  | zero =>
    intro g cd docId m hf hg
    have hcd : maxD < cd := by omega
    rw [buildTreeNode_depth_exceeded ic maxD 0 cd docId m hcd,
      buildTreeNode_depth_exceeded ic maxD g cd docId m hcd]
  | succ n ih =>
    intro g cd docId m hf hg
    cases g with
    | zero =>
      have hcd : maxD < cd := by omega
      rw [buildTreeNode_depth_exceeded ic maxD (n + 1) cd docId m hcd,
        buildTreeNode_depth_exceeded ic maxD 0 cd docId m hcd]
    | succ k =>
      simp only [buildTreeNode]
      cases halist : alistGet m docId with
      | none => rfl
      | some e =>
        by_cases hde : cd > maxD
        · simp [hde]
        · by_cases hpr : e.processed
          · simp [hde, hpr]
          · have hstep :
                (fun (acc : List TreeNode × DocMap) childId =>
                  let r := buildTreeNode ic maxD n (cd + 1) childId acc.2
                  match r.1 with
                  | some nd => (acc.1 ++ [nd], r.2)
                  | Option.none => (acc.1, r.2)) =
                (fun (acc : List TreeNode × DocMap) childId =>
                  let r := buildTreeNode ic maxD k (cd + 1) childId acc.2
                  match r.1 with
                  | some nd => (acc.1 ++ [nd], r.2)
                  | Option.none => (acc.1, r.2)) := by
              funext acc childId
              rw [ih k (cd + 1) childId acc.2 (by omega) (by omega)]
            simp only [hde, hpr, if_false, hstep]

/-- C5.  Cycle safety of both traversals, for every node collection,
parent-pointer cycles included: (1) the breadcrumb loop always
completes — the visited set guarantees the entry fuel
`store.length + 2` is never exhausted, so the `while` loop cannot run
forever; (2) the tree builder is insensitive to any fuel of at least
`max_depth + 1 - current_depth`, i.e. the recursion reaches its
fixpoint within the depth bound and terminates; and (3) descent stops,
returning `None` and leaving the map unchanged, at any node whose
`processed` flag is already set — the cycle is broken, not an error. -/
theorem C5_cycle_safe_traversals :
    (∀ (store : Store) (documentId : String) (mainDoc : EsDoc),
      (breadcrumbPath store documentId mainDoc).isSome = true)
    ∧ (∀ (ic : Bool) (maxD f g cd : Nat) (docId : String) (m : DocMap),
        maxD + 1 - cd ≤ f → maxD + 1 - cd ≤ g →
        buildTreeNode ic maxD f cd docId m = buildTreeNode ic maxD g cd docId m)
    ∧ (∀ (ic : Bool) (maxD fuel cd : Nat) (docId : String) (m : DocMap)
        (e : DocMapEntry), alistGet m docId = some e → e.processed = true →
        buildTreeNode ic maxD fuel cd docId m = (Option.none, m)) := by
  refine ⟨?_, buildTreeNode_fuel_irrel, ?_⟩
  · intro store documentId mainDoc
    rw [breadcrumbPath, Option.isSome_map']
    apply breadcrumbLoop_isSome
    have h1 : unvisitedCount store [] ≤ store.length := by
      unfold unvisitedCount
      rw [show ([] : List String).toFinset = ∅ from rfl, Finset.sdiff_empty]
      calc (store.map Prod.fst).toFinset.card
          ≤ (store.map Prod.fst).length := List.toFinset_card_le _
        _ = store.length := List.length_map _ _
    rw [if_neg (List.not_mem_nil documentId)]
    omega
  · intro ic maxD fuel cd docId m e halist hproc
    cases fuel with
    | zero => rfl
    | succ n =>
      simp only [buildTreeNode, halist]
      by_cases hde : cd > maxD
      · simp [hde]
      · simp [hde, hproc]

/-- C5, witness: the traversals on the two-node parent cycle `x ⇄ y`. -/
theorem C5_witness :
    (breadcrumbPath exCycleStore "x" (exStoredDoc "x" 0 (some "y") ["y"])).isSome = true
    ∧ buildTreeNode false 3 4 0 "x"
        (addChildLinks (buildDocMap (workflowHits exCycleStore "W")))
        = buildTreeNode false 3 9 0 "x"
          (addChildLinks (buildDocMap (workflowHits exCycleStore "W")))
    ∧ buildTreeNode false 3 4 0 "x"
        [("x", ⟨exStoredDoc "x" 0 Option.none [], [], true⟩)]
        = (Option.none, [("x", ⟨exStoredDoc "x" 0 Option.none [], [], true⟩)]) :=
  ⟨C5_cycle_safe_traversals.1 exCycleStore "x" (exStoredDoc "x" 0 (some "y") ["y"]),
   C5_cycle_safe_traversals.2.1 false 3 4 9 0 "x"
     (addChildLinks (buildDocMap (workflowHits exCycleStore "W")))
     (by decide) (by decide),
   C5_cycle_safe_traversals.2.2 false 3 4 0 "x"
     [("x", ⟨exStoredDoc "x" 0 Option.none [], [], true⟩)]
     ⟨exStoredDoc "x" 0 Option.none [], [], true⟩ rfl rfl⟩

/-- Decidable description of an acyclic upward parent chain in `store`:
every entry is a non-empty id present in the store, each entry's
`parent_id` points at the next entry, and the last entry is a root
(`parent_id` null).  A document at depth `k` below the root has a chain
of length `k + 1` starting at itself. -/
def isParentChain (store : Store) : List String → Bool
  | [] => false
  | [i] =>
    decide (i ≠ "") &&
      (match storeGet store i with
       | some doc => decide (doc.hierarchy.parent_id = Option.none)
       | Option.none => false)
  | i :: j :: rest =>
    decide (i ≠ "") &&
      (match storeGet store i with
       | some doc => decide (doc.hierarchy.parent_id = some j)
       | Option.none => false) &&
      isParentChain store (j :: rest)

theorem isParentChain_mem_store (store : Store) :
    ∀ chain, isParentChain store chain = true →
      ∀ c ∈ chain, (storeGet store c).isSome := by
  intro chain
  induction chain with
  | nil => intro h c hc; cases hc
  | cons i rest ih =>
    intro h c hc
    cases rest with
    | nil =>
      rcases List.mem_singleton.mp hc with rfl
      simp only [isParentChain, Bool.and_eq_true] at h
      cases hg : storeGet store c with
      | none => rw [hg] at h; exact absurd h.2 (by simp)
      | some doc => rfl
    | cons j rest' =>
      simp only [isParentChain, Bool.and_eq_true] at h
      rcases List.mem_cons.mp hc with rfl | hc'
      · cases hg : storeGet store c with
        | none => rw [hg] at h; exact absurd h.1.2 (by simp)
        | some doc => rfl
      · exact ih h.2 c hc'

/-- The breadcrumb loop walks an acyclic parent chain in full, emitting
one item per chain entry, in chain order. -/
theorem breadcrumbLoop_chain (store : Store) (docId : String) (mainDoc : EsDoc)
    (hmain : storeGet store docId = some mainDoc) :
    ∀ (chain : List String) (fuel : Nat) (visited : List String)
      (acc : List BreadcrumbItem),
      isParentChain store chain = true →
      chain.Nodup →
      (∀ c ∈ chain, c ∉ visited) →
      chain.length < fuel →
      ∃ items, breadcrumbLoop store docId mainDoc fuel chain.head? visited acc
          = some (acc ++ items)
        ∧ items.map (fun b => b.document_id) = chain := by
  intro chain
  induction chain with
  | nil => intro fuel visited acc h; cases h
  | cons i rest ih =>
    intro fuel visited acc hchain hnd hvis hfuel
    cases fuel with
    | zero => omega
    | succ f =>
      -- the head is fetched: either it is the target (main_doc is reused,
      -- and equals the stored doc by `hmain`) or it is read from the store
      have hifetch : ∀ doc, storeGet store i = some doc →
          (if i = docId then some mainDoc else storeGet store i) = some doc := by
        intro doc hdoc
        by_cases hi : i = docId
        · rw [if_pos hi]
          rw [hi] at hdoc
          rw [hmain] at hdoc
          rw [hdoc]
        · rw [if_neg hi]
          exact hdoc
      cases rest with
      | nil =>
        simp only [isParentChain, Bool.and_eq_true, decide_eq_true_eq] at hchain
        obtain ⟨hne, hroot⟩ := hchain
        cases hg : storeGet store i with
        | none => rw [hg] at hroot; exact absurd hroot (by simp)
        | some doc =>
          rw [hg] at hroot
          have hpar : doc.hierarchy.parent_id = Option.none := by
            simpa using hroot
          have hnv : i ∉ visited := hvis i (List.mem_cons_self _ _)
          cases f with
          | zero =>
            simp only [List.length_cons, List.length_nil] at hfuel
            omega
          | succ f' =>
            refine ⟨[⟨i, pyPreview 100 doc.content, doc.document_type,
              doc.hierarchy.level⟩], ?_, by simp⟩
            simp only [List.head?_cons, breadcrumbLoop, if_neg hne, if_neg hnv,
              hifetch doc hg, hpar]
      | cons j rest' =>
        simp only [isParentChain, Bool.and_eq_true, decide_eq_true_eq] at hchain
        obtain ⟨⟨hne, hstep⟩, hrest⟩ := hchain
        cases hg : storeGet store i with
        | none => rw [hg] at hstep; exact absurd hstep (by simp)
        | some doc =>
          rw [hg] at hstep
          have hpar : doc.hierarchy.parent_id = some j := by
            simpa using hstep
          have hnv : i ∉ visited := hvis i (List.mem_cons_self _ _)
          have hndr : (j :: rest').Nodup := hnd.of_cons
          have hvisr : ∀ c ∈ j :: rest', c ∉ i :: visited := by
            intro c hc
            intro hmem
            rcases List.mem_cons.mp hmem with rfl | hmem'
            · exact (List.nodup_cons.mp hnd).1 hc
            · exact hvis c (List.mem_cons_of_mem _ hc) hmem'
          have hfr : (j :: rest').length < f := by
            simp only [List.length_cons] at hfuel ⊢
            omega
          obtain ⟨items', hloop', hmap'⟩ := ih f (i :: visited)
            (acc ++ [⟨i, pyPreview 100 doc.content, doc.document_type,
              doc.hierarchy.level⟩])
            hrest hndr hvisr hfr
          refine ⟨⟨i, pyPreview 100 doc.content, doc.document_type,
            doc.hierarchy.level⟩ :: items', ?_, by simp [hmap']⟩
          simp only [List.head?_cons, breadcrumbLoop, if_neg hne, if_neg hnv,
            hifetch doc hg, hpar]
          rw [show (acc ++ [(⟨i, pyPreview 100 doc.content, doc.document_type,
            doc.hierarchy.level⟩ : BreadcrumbItem)]) ++ items'
            = acc ++ (⟨i, pyPreview 100 doc.content, doc.document_type,
              doc.hierarchy.level⟩ :: items') from by simp] at hloop'
          rw [List.head?_cons] at hloop'
          exact hloop'

/-- C4.  For an acyclic parent chain, the breadcrumb path runs from the
root to the target: the returned items are the chain entries reversed,
so index 0 is the root (the chain's last entry), the final item is the
target document itself, a root document yields a path of length exactly
1, and a document at depth `k` (chain length `k + 1`) yields a path of
length `k + 1`. -/
theorem C4_breadcrumb_root_to_target (store : Store) (docId : String)
    (mainDoc : EsDoc) (chain : List String)
    (hmain : storeGet store docId = some mainDoc)
    (hhead : chain.head? = some docId)
    (hchain : isParentChain store chain = true)
    (hnd : chain.Nodup) :
    ∃ path, breadcrumbPath store docId mainDoc = some path
      ∧ path.map (fun b => b.document_id) = chain.reverse
      ∧ path.length = chain.length := by
  have hsub : ∀ c ∈ chain, c ∈ store.map Prod.fst := fun c hc =>
    alistGet_isSome_mem store c (isParentChain_mem_store store chain hchain c hc)
  have hlen : chain.length ≤ store.length := by
    have hsp := List.subperm_of_subset hnd hsub
    calc chain.length ≤ (store.map Prod.fst).length := hsp.length_le
      _ = store.length := List.length_map _ _
  obtain ⟨items, hloop, hmap⟩ := breadcrumbLoop_chain store docId mainDoc hmain
    chain (store.length + 2) [] []
    hchain hnd (fun c _ => List.not_mem_nil c) (by omega)
  refine ⟨items.reverse, ?_, ?_, ?_⟩
  · rw [breadcrumbPath, hhead] at *
    rw [hloop]
    rfl
  · rw [List.map_reverse, hmap]
  · calc items.reverse.length = items.length := List.length_reverse _
      _ = (items.map (fun b => b.document_id)).length := (List.length_map _ _).symm
      _ = chain.length := by rw [hmap]

/-- C4, witness: on the stored chain a → b → c, the breadcrumb for the
depth-2 document c is `[a, b, c]` — root first, target last, length
2 + 1. -/
theorem C4_witness :
    ∃ path, breadcrumbPath exChainStore "c" (exStoredDoc "c" 2 (some "b") [])
        = some path
      ∧ path.map (fun b => b.document_id) = ["a", "b", "c"]
      ∧ path.length = 3 := by
  have h := C4_breadcrumb_root_to_target exChainStore "c"
    (exStoredDoc "c" 2 (some "b") []) ["c", "b", "a"] rfl rfl (by decide) (by decide)
  simpa using h

/-! ## Claim C2 — universal depth bound and the value of `truncated` -/

theorem forestDepthFold_le (maxD : Nat) :
    ∀ (ts : List TreeNode) (depth acc : Nat), acc ≤ maxD →
      (∀ t ∈ ts, treeMaxDepth t depth ≤ maxD) →
      forestDepthFold ts depth acc ≤ maxD := by
  intro ts
  induction ts with
  | nil =>
    intro depth acc h _
    simpa [forestDepthFold] using h
  | cons t ts ih =>
    intro depth acc hacc hall
    simp only [forestDepthFold]
    refine ih depth _ (Nat.max_le.mpr ⟨hacc, hall t (List.mem_cons_self _ _)⟩) ?_
    exact fun u hu => hall u (List.mem_cons_of_mem _ hu)

/-- Every tree node appended by the builder fold satisfies `P` when
every successful builder call produces a `P` node. -/
theorem foldBuild_mem (ic : Bool) (maxD fuel cd : Nat) (P : TreeNode → Prop)
    (hcall : ∀ (i : String) (m : DocMap) (t : TreeNode) (m' : DocMap),
      buildTreeNode ic maxD fuel cd i m = (some t, m') → P t) :
    ∀ (ids : List String) (acc : List TreeNode × DocMap),
      (∀ t ∈ acc.1, P t) →
      ∀ t ∈ (ids.foldl (fun acc i =>
          let r := buildTreeNode ic maxD fuel cd i acc.2
          match r.1 with
          | some nd => (acc.1 ++ [nd], r.2)
          | Option.none => (acc.1, r.2)) acc).1, P t := by
  intro ids
  induction ids with
  | nil =>
    intro acc hacc t ht
    exact hacc t ht
  | cons i is ih =>
    intro acc hacc t ht
    rw [List.foldl_cons] at ht
    refine ih _ ?_ t ht
    intro u hu
    rcases hru : buildTreeNode ic maxD fuel cd i acc.2 with ⟨o, m2⟩
    rw [hru] at hu
    cases o with
    | none => exact hacc u hu
    | some nd =>
      simp only [List.mem_append, List.mem_singleton] at hu
      rcases hu with hu | rfl
      · exact hacc u hu
      · exact hcall i acc.2 u m2 hru

/-- A successfully built node, started at depth `cd`, contains no node
deeper than `maxD`: the depth guard prunes everything beyond the
requested depth. -/
theorem buildTreeNode_depth_le (ic : Bool) (maxD : Nat) :
    ∀ (fuel cd : Nat) (docId : String) (m : DocMap) (t : TreeNode) (m' : DocMap),
      buildTreeNode ic maxD fuel cd docId m = (some t, m') →
      treeMaxDepth t cd ≤ maxD := by
  intro fuel
  induction fuel with
  | zero =>
    intro cd docId m t m' h
    exact absurd h (by simp [buildTreeNode])
  | succ n ih =>
    intro cd docId m t m' h
    simp only [buildTreeNode] at h
    cases halist : alistGet m docId with
    | none =>
      rw [halist] at h
      exact absurd h (by simp)
    | some e =>
      rw [halist] at h
      dsimp only at h
      by_cases hde : cd > maxD
      · rw [if_pos hde] at h
        exact absurd h (by simp)
      · rw [if_neg hde] at h
        by_cases hpr : e.processed
        · rw [if_pos hpr] at h
          exact absurd h (by simp)
        · rw [if_neg hpr] at h
          rw [Prod.mk.injEq] at h
          obtain ⟨h1, _⟩ := h
          obtain rfl := Option.some.inj h1
          simp only [treeMaxDepth]
          refine forestDepthFold_le maxD _ (cd + 1) cd (by omega) ?_
          by_cases hlt : cd < maxD
          · rw [if_pos hlt]
            refine foldBuild_mem ic maxD n (cd + 1)
              (fun u => treeMaxDepth u (cd + 1) ≤ maxD)
              (fun i m t m' hc => ih (cd + 1) i m t m' hc)
              e.children _ ?_
            intro u hu
            exact absurd hu (List.not_mem_nil u)
          · rw [if_neg hlt]
            intro u hu
            exact absurd hu (List.not_mem_nil u)

theorem forestMaxDepth_le (maxD : Nat) :
    ∀ (ts : List TreeNode), (∀ t ∈ ts, treeMaxDepth t 0 ≤ maxD) →
      forestMaxDepth ts ≤ maxD := by
  have haux : ∀ (ts : List TreeNode) (acc : Nat), acc ≤ maxD →
      (∀ t ∈ ts, treeMaxDepth t 0 ≤ maxD) →
      ts.foldl (fun acc t => max acc (treeMaxDepth t 0)) acc ≤ maxD := by
    intro ts
    induction ts with
    | nil =>
      intro acc hacc _
      simpa using hacc
    | cons t ts ih =>
      intro acc hacc hall
      rw [List.foldl_cons]
      refine ih _ (Nat.max_le.mpr ⟨hacc, hall t (List.mem_cons_self _ _)⟩) ?_
      exact fun u hu => hall u (List.mem_cons_of_mem _ hu)
  intro ts hall
  exact haux ts 0 (Nat.zero_le _) hall

/-- C2, amended.  For every store, workflow and requested depth, the
returned forest contains no node deeper than `max_depth` (in particular,
with `max_depth = 1` no grandchild of a root appears), but
`tree_metadata.truncated` is not the claimed indicator: it is computed
by walking the already-capped returned forest, whose measured depth
never exceeds `max_depth`, so `truncated = false` always — also when the
true depth of the workflow tree exceeds `max_depth`
(`C2_counterexample`). -/
theorem C2_depth_capped_and_truncated_false (store : Store) (wid : String)
    (maxD : Nat) (ic : Bool) (resp : CompleteTreeResponse)
    (h : getCompleteTree store wid maxD ic = .ok resp) :
    (∀ t ∈ resp.tree, treeMaxDepth t 0 ≤ maxD)
      ∧ resp.tree_metadata.truncated = false := by
  rw [getCompleteTree] at h
  by_cases hempty : (workflowHits store wid).isEmpty
  · rw [if_pos hempty] at h
    cases h
  · rw [if_neg hempty] at h
    obtain rfl := (Except.ok.inj h).symm
    have htrees : ∀ t ∈ (rootNodes (workflowHits store wid)).foldl
        (fun (acc : List TreeNode × DocMap) rootId =>
          let r := buildTreeNode ic maxD (maxD + 1) 0 rootId acc.2
          match r.1 with
          | some t => (acc.1 ++ [t], r.2)
          | Option.none => (acc.1, r.2))
        ([], addChildLinks (buildDocMap (workflowHits store wid))) |>.1,
        treeMaxDepth t 0 ≤ maxD := by
      refine foldBuild_mem ic maxD (maxD + 1) 0 (fun u => treeMaxDepth u 0 ≤ maxD)
        (fun i m t m' hc => buildTreeNode_depth_le ic maxD (maxD + 1) 0 i m t m' hc)
        _ _ ?_
      intro u hu
      exact absurd hu (List.not_mem_nil u)
    refine ⟨htrees, ?_⟩
    have hbound := forestMaxDepth_le maxD _ htrees
    simp only [CompleteTreeResponse.tree_metadata]
    exact decide_eq_false (Nat.not_lt.mpr hbound)

theorem except_isOk_exists {ε α : Type} (x : Except ε α) (h : x.isOk = true) :
    ∃ a, x = .ok a := by
  cases x with
  | error e => simp [Except.isOk, Except.toBool] at h
  | ok a => exact ⟨a, rfl⟩

/-- C2, witness: the amended claim applied to the concrete chain store
with `max_depth = 1`. -/
theorem C2_witness :
    ∃ resp, getCompleteTree exChainStore "W" 1 false = .ok resp
      ∧ (∀ t ∈ resp.tree, treeMaxDepth t 0 ≤ 1)
      ∧ resp.tree_metadata.truncated = false := by
  obtain ⟨resp, hresp⟩ := except_isOk_exists (getCompleteTree exChainStore "W" 1 false) rfl
  have hc := C2_depth_capped_and_truncated_false exChainStore "W" 1 false resp hresp
  exact ⟨resp, hresp, hc.1, hc.2⟩

/-! ## Claim C1 — amended batch-rejection behaviour -/

/-- The final-summary flag the in-request validation map records for a
workflow (`workflow_validation[wf]['final_summary_exists']`, absent ⇒
false). -/
def wvFinalExists (wv : List (String × WorkflowEntry)) (w : String) : Bool :=
  match alistGet wv w with
  | some e => e.final_summary_exists
  | Option.none => false

/-- The workflow ids of the final-summary documents of a batch, in batch
order. -/
def finalsOf (docs : List DocumentInput) : List String :=
  (docs.filter (fun d => d.is_final_summary)).map (fun d => d.workflow_id)

theorem wvFinalExists_alistSet (wv : List (String × WorkflowEntry))
    (k : String) (e : WorkflowEntry) (w : String) :
    wvFinalExists (alistSet wv k e) w
      = if w = k then e.final_summary_exists else wvFinalExists wv w := by
  unfold wvFinalExists
  by_cases h : w = k
  · subst h
    rw [alistGet_alistSet_self, if_pos rfl]
  · rw [alistGet_alistSet_other wv k w e h, if_neg h]

/-- A document whose workflow already carries the final-summary flag in
the batch-local map makes the loop iteration raise the 400 validation
error, leaving the state untouched. -/
theorem ingestStep_dup_fail (embed : String → Except String EmbVec)
    (genId : Nat → String) (now : String) (st : IngestState)
    (d : DocumentInput) (hfin : d.is_final_summary = true)
    (hwv : wvFinalExists st.workflow_validation d.workflow_id = true) :
    ingestStep embed genId now st d
      = .fail st ⟨400, "Workflow " ++ d.workflow_id
          ++ " already has a final summary"⟩ := by
  unfold ingestStep
  unfold wvFinalExists at hwv
  cases halist : alistGet st.workflow_validation d.workflow_id with
  | none =>
    rw [halist] at hwv
    cases hwv
  | some e =>
    rw [halist] at hwv
    dsimp only at hwv
    dsimp only
    rw [halist]
    dsimp only
    rw [hwv, hfin]
    rfl

/-- A loop iteration that passes validation and embeds successfully
returns the updated state, whose final-summary flags are the previous
flags extended by this document's contribution. -/
theorem ingestStep_ok_flags (embed : String → Except String EmbVec)
    (genId : Nat → String) (now : String) (st : IngestState)
    (d : DocumentInput) (v : EmbVec) (hv : embed d.content = Except.ok v)
    (hnodup : ¬(d.is_final_summary = true
      ∧ wvFinalExists st.workflow_validation d.workflow_id = true)) :
    ∃ st', ingestStep embed genId now st d = .ok st'
      ∧ ∀ w, wvFinalExists st'.workflow_validation w
          = (wvFinalExists st.workflow_validation w
             || (d.is_final_summary && decide (d.workflow_id = w))) := by
  have hdup : (match alistGet st.workflow_validation d.workflow_id with
      | some entry => entry.final_summary_exists && d.is_final_summary
      | Option.none => false) = false := by
    cases halist : alistGet st.workflow_validation d.workflow_id with
    | none => rfl
    | some e =>
      by_cases hf : d.is_final_summary = true
      · have he : e.final_summary_exists = false := by
          by_contra hc
          refine hnodup ⟨hf, ?_⟩
          unfold wvFinalExists
          rw [halist]
          simpa using hc
        simp [he]
      · simp [Bool.eq_false_iff.mpr hf]
  unfold ingestStep
  dsimp only
  rw [hdup, if_neg Bool.false_ne_true, hv]
  dsimp only
  refine ⟨_, rfl, ?_⟩
  intro w
  have hdw : ∀ hww : ¬ w = d.workflow_id, decide (d.workflow_id = w) = false :=
    fun hww => decide_eq_false (fun hc => hww hc.symm)
  cases halist : alistGet st.workflow_validation d.workflow_id with
  | none =>
    by_cases hf : d.is_final_summary = true
    · by_cases hw : w = d.workflow_id
      · simp [hf, hw, wvFinalExists_alistSet, alistGet_alistSet_self,
          wvFinalExists, halist]
      · simp [hf, hw, wvFinalExists_alistSet, alistGet_alistSet_self, hdw hw]
    · have hf2 : d.is_final_summary = false := Bool.eq_false_iff.mpr hf
      by_cases hw : w = d.workflow_id
      · simp [hf2, hw, wvFinalExists_alistSet, alistGet_alistSet_self,
          wvFinalExists, halist]
      · simp [hf2, hw, wvFinalExists_alistSet, alistGet_alistSet_self]
  | some e =>
    by_cases hf : d.is_final_summary = true
    · by_cases hw : w = d.workflow_id
      · simp [hf, hw, halist, wvFinalExists_alistSet, alistGet_alistSet_self]
      · simp [hf, hw, halist, wvFinalExists_alistSet, alistGet_alistSet_self,
          hdw hw]
    · have hf2 : d.is_final_summary = false := Bool.eq_false_iff.mpr hf
      by_cases hw : w = d.workflow_id
      · simp [hf2, hw, halist, wvFinalExists_alistSet, alistGet_alistSet_self,
          wvFinalExists]
      · simp [hf2, hw, halist, wvFinalExists_alistSet, alistGet_alistSet_self]

/-- No document of the list declares a final summary for a workflow
whose flag is already set — neither in the given flags nor by an
earlier document of the list.  This is exactly the condition under
which the ingest loop never raises the 400. -/
def NoDupRel : List DocumentInput → (String → Bool) → Prop
  | [], _ => True
  | d :: ds, flags =>
    ¬(d.is_final_summary = true ∧ flags d.workflow_id = true)
    ∧ NoDupRel ds
        (fun w => flags w || (d.is_final_summary && decide (d.workflow_id = w)))

theorem noDupRel_of_nodup :
    ∀ (docs : List DocumentInput) (flags : String → Bool),
      (finalsOf docs).Nodup → (∀ w ∈ finalsOf docs, flags w = false) →
      NoDupRel docs flags := by
  intro docs
  induction docs with
  | nil =>
    intro flags _ _
    trivial
  | cons d ds ih =>
    intro flags hnd hff
    by_cases hf : d.is_final_summary = true
    · have hfo : finalsOf (d :: ds) = d.workflow_id :: finalsOf ds := by
        simp [finalsOf, hf]
      rw [hfo] at hnd hff
      refine ⟨?_, ?_⟩
      · rintro ⟨_, hb⟩
        rw [hff d.workflow_id (List.mem_cons_self _ _)] at hb
        cases hb
      · refine ih _ hnd.of_cons ?_
        intro w hw
        have hne : w ≠ d.workflow_id := fun hc =>
          (List.nodup_cons.mp hnd).1 (hc ▸ hw)
        simp [hff w (List.mem_cons_of_mem _ hw), hf,
          decide_eq_false (fun hc : d.workflow_id = w => hne hc.symm)]
    · have hf2 : d.is_final_summary = false := Bool.eq_false_iff.mpr hf
      have hfo : finalsOf (d :: ds) = finalsOf ds := by
        simp [finalsOf, hf2]
      rw [hfo] at hnd hff
      refine ⟨?_, ?_⟩
      · rintro ⟨ha, _⟩
        rw [hf2] at ha
        cases ha
      · refine ih _ hnd ?_
        intro w hw
        simp [hff w hw, hf2]

/-- A validation-clean, embedding-clean run of the ingest loop raises no
exception and accumulates exactly the final-summary flags of its
documents. -/
theorem ingestLoop_ok_flags (embed : String → Except String EmbVec)
    (genId : Nat → String) (now : String) :
    ∀ (docs : List DocumentInput) (st : IngestState),
      (∀ p ∈ docs, ∃ v, embed p.content = Except.ok v) →
      NoDupRel docs (fun w => wvFinalExists st.workflow_validation w) →
      (ingestLoop embed genId now docs st).2 = Option.none
      ∧ ∀ w, wvFinalExists
            (ingestLoop embed genId now docs st).1.workflow_validation w
          = (wvFinalExists st.workflow_validation w
             || docs.any (fun p => p.is_final_summary && decide (p.workflow_id = w))) := by
  intro docs
  induction docs with
  | nil =>
    intro st _ _
    exact ⟨rfl, fun w => by simp [ingestLoop]⟩
  | cons d ds ih =>
    intro st hemb hnd
    obtain ⟨v, hv⟩ := hemb d (List.mem_cons_self _ _)
    obtain ⟨hd1, hd2⟩ := hnd
    obtain ⟨st', hstep, hflags⟩ :=
      ingestStep_ok_flags embed genId now st d v hv hd1
    have hfun : (fun w => wvFinalExists st'.workflow_validation w)
        = (fun w => wvFinalExists st.workflow_validation w
            || (d.is_final_summary && decide (d.workflow_id = w))) :=
      funext hflags
    have hds := ih st' (fun p hp => hemb p (List.mem_cons_of_mem _ hp))
      (by rw [hfun]; exact hd2)
    refine ⟨?_, ?_⟩
    · simp only [ingestLoop, hstep]
      exact hds.1
    · intro w
      simp only [ingestLoop, hstep]
      rw [hds.2 w, hflags w]
      simp [List.any_cons, Bool.or_assoc]

/-- The ingest loop over an appended batch runs the prefix first and
continues from its state unless it failed. -/
theorem ingestLoop_append (embed : String → Except String EmbVec)
    (genId : Nat → String) (now : String) (xs ys : List DocumentInput) :
    ∀ st : IngestState,
      ingestLoop embed genId now (xs ++ ys) st =
        (match ingestLoop embed genId now xs st with
         | (st', Option.none) => ingestLoop embed genId now ys st'
         | (st', some e) => (st', some e)) := by
  induction xs with
  | nil =>
    intro st
    simp [ingestLoop]
  | cons x xs ih =>
    intro st
    rw [List.cons_append]
    simp only [ingestLoop]
    cases ingestStep embed genId now st x with
    | ok st' => exact ih st'
    | fail st' e => rfl

/-- C1, amended.  When a batch decomposes as `pre ++ d :: post` where
`pre` is validation-clean (no two final summaries of one workflow) and
embeds successfully, and `d` declares a final summary for a workflow
that already has one in `pre`, the whole request fails with the 400
validation error — and the resulting store is exactly the store after
ingesting `pre`: the duplicate and everything after it are not written,
while all writes for `pre`, nodes of the duplicated workflow included,
persist. -/
theorem C1_reject_after_prefix_writes (embed : String → Except String EmbVec)
    (genId : Nat → String) (now : String) (pre post : List DocumentInput)
    (d : DocumentInput) (store : Store)
    (hemb : ∀ p ∈ pre, ∃ v, embed p.content = Except.ok v)
    (hnd : (finalsOf pre).Nodup)
    (hfin : d.is_final_summary = true)
    (hdup : d.workflow_id ∈ finalsOf pre) :
    ingestDocuments embed genId now (pre ++ d :: post) store
      = ((ingestLoop embed genId now pre ⟨store, [], [], 0⟩).1.store,
         .error ⟨400, "Workflow " ++ d.workflow_id
           ++ " already has a final summary"⟩) := by
  have h0 : ∀ w ∈ finalsOf pre,
      (fun w => wvFinalExists (⟨store, [], [], 0⟩ : IngestState).workflow_validation w) w
        = false := fun w _ => rfl
  obtain ⟨hnone, hflags⟩ := ingestLoop_ok_flags embed genId now pre
    ⟨store, [], [], 0⟩ hemb (noDupRel_of_nodup pre _ hnd h0)
  have hflag : wvFinalExists
      (ingestLoop embed genId now pre ⟨store, [], [], 0⟩).1.workflow_validation
      d.workflow_id = true := by
    rw [hflags]
    have : pre.any (fun p => p.is_final_summary
        && decide (p.workflow_id = d.workflow_id)) = true := by
      rw [List.any_eq_true]
      unfold finalsOf at hdup
      obtain ⟨p, hpf, hpw⟩ := List.mem_map.mp hdup
      obtain ⟨hp, hpfin⟩ := List.mem_filter.mp hpf
      exact ⟨p, hp, by simp [hpfin, hpw]⟩
    rw [this]
    simp
  have hfail := ingestStep_dup_fail embed genId now
    (ingestLoop embed genId now pre ⟨store, [], [], 0⟩).1 d hfin hflag
  unfold ingestDocuments
  rw [ingestLoop_append]
  rcases hpair : ingestLoop embed genId now pre ⟨store, [], [], 0⟩ with ⟨st1, e1⟩
  rw [hpair] at hnone hfail
  simp only at hnone
  subst hnone
  simp only [ingestLoop, hfail]

/-- C1, witness: the amended claim applied to the two-final batch of the
counterexample. -/
theorem C1_witness :
    ingestDocuments embedOk genIdEx "t0" [exFinalDocA, exFinalDocB] []
      = ((ingestLoop embedOk genIdEx "t0" [exFinalDocA] ⟨[], [], [], 0⟩).1.store,
         .error ⟨400, "Workflow W already has a final summary"⟩) :=
  C1_reject_after_prefix_writes embedOk genIdEx "t0" [exFinalDocA] []
    exFinalDocB [] (fun p _ => ⟨[], rfl⟩) (by decide) rfl (by decide)

/-! ## Claim C6 — amended embedding-failure behaviour -/

/-- C6, amended.  In the batch ingest loop an embedding failure is
fatal: the iteration raises the 500 server error and performs no store
write (`st'.store = st.store`, so the failing document is not stored and
the whole request aborts).  In the single-document import endpoint of
`haystack_service.py` the failure is non-fatal: the document is stored
with no embedding and the request reports success with
`embeddings_generated = false`. -/
theorem C6_embed_failure_fatal_in_batch_nonfatal_in_import :
    (∀ (embed : String → Except String EmbVec) (genId : Nat → String)
       (now msg : String) (st : IngestState) (d : DocumentInput),
       embed d.content = .error msg →
       ¬(d.is_final_summary = true
         ∧ wvFinalExists st.workflow_validation d.workflow_id = true) →
       ∃ st', ingestStep embed genId now st d
           = .fail st' ⟨500, "Failed to generate embeddings: " ++ msg⟩
         ∧ st'.store = st.store)
    ∧ (∀ (embed : String → Except String EmbVec) (now msg : String)
       (store : ImportStore) (d : ImportDocumentInput),
       d.generate_embeddings = true →
       embed (if d.summary ≠ "" then d.summary else d.content) = .error msg →
       (if d.summary ≠ "" then d.summary else d.content) ≠ "" →
       ((alistGet (importDocument embed now store d).1 d.document_id).map
          (fun doc => doc.embedding)) = some Option.none
       ∧ (importDocument embed now store d).2
           = .ok { document_id := d.document_id, status := "success",
                   embeddings_generated := false, content_indexed := true }) := by
  constructor
  · intro embed genId now msg st d hv hnodup
    have hdup : (match alistGet st.workflow_validation d.workflow_id with
        | some entry => entry.final_summary_exists && d.is_final_summary
        | Option.none => false) = false := by
      cases halist : alistGet st.workflow_validation d.workflow_id with
      | none => rfl
      | some e =>
        by_cases hf : d.is_final_summary = true
        · have he : e.final_summary_exists = false := by
            by_contra hc
            refine hnodup ⟨hf, ?_⟩
            unfold wvFinalExists
            rw [halist]
            simpa using hc
          simp [he]
        · simp [Bool.eq_false_iff.mpr hf]
    unfold ingestStep
    dsimp only
    rw [hdup, if_neg Bool.false_ne_true, hv]
    exact ⟨_, rfl, rfl⟩
  · intro embed now msg store d hg hv hc
    unfold importDocument
    dsimp only
    rw [hg, hv]
    have hcb : decide ((if d.summary ≠ "" then d.summary else d.content) ≠ "")
        = true := decide_eq_true hc
    constructor
    · rw [alistGet_alistSet_self]
      dsimp only
      rw [hcb]
      rfl
    · dsimp only
      rw [hcb]
      rfl

/-- C6, witness: both parts at concrete inputs. -/
theorem C6_witness :
    (∃ st', ingestStep embedFail genIdEx "t0" ⟨[], [], [], 0⟩ exFinalDocA
        = .fail st' ⟨500, "Failed to generate embeddings: model offline"⟩
      ∧ st'.store = [])
    ∧ (((alistGet (importDocument embedFail "t0" []
          { content := "body", document_id := "i1", workflow_id := "W" }).1 "i1").map
          (fun doc => doc.embedding)) = some Option.none
       ∧ (importDocument embedFail "t0" []
            { content := "body", document_id := "i1", workflow_id := "W" }).2
           = .ok { document_id := "i1", status := "success",
                   embeddings_generated := false, content_indexed := true }) :=
  ⟨C6_embed_failure_fatal_in_batch_nonfatal_in_import.1 embedFail genIdEx "t0"
     "model offline" ⟨[], [], [], 0⟩ exFinalDocA rfl (by simp [wvFinalExists, alistGet]),
   C6_embed_failure_fatal_in_batch_nonfatal_in_import.2 embedFail "t0"
     "model offline" [] { content := "body", document_id := "i1", workflow_id := "W" }
     rfl rfl (by decide)⟩

/-! ## Claim C7 — `children_ids` stays duplicate-free in insertion order -/

/-- The effect one backlink update has on `children_ids`: append the
child at the end if and only if it is absent. -/
def appendIfAbsent (l : List String) (x : String) : List String :=
  if x ∈ l then l else l ++ [x]

/-- Whether a stored document's `metadata.tree_metadata` is a dict —
the shape `ingest_documents` writes, and what the backlink update needs
to find in order not to bail out. -/
def hasTreeMetaDict (doc : EsDoc) : Bool :=
  match dictGet doc.metadata "tree_metadata" with
  | some (.dict _) => true
  | _ => false

theorem appendIfAbsent_nodup (l : List String) (x : String) (h : l.Nodup) :
    (appendIfAbsent l x).Nodup := by
  unfold appendIfAbsent
  by_cases hx : x ∈ l
  · rwa [if_pos hx]
  · rw [if_neg hx, ← List.concat_eq_append]
    exact List.Nodup.concat hx h

/-- One clean loop iteration for a child of `P` updates `P`'s stored
`children_ids` by `appendIfAbsent` and preserves the tree-metadata
shape. -/
theorem ingestStep_parent_children (embed : String → Except String EmbVec)
    (genId : Nat → String) (now : String) (st : IngestState)
    (d : DocumentInput) (P : String) (pdoc : EsDoc) (s : String) (v : EmbVec)
    (hP : storeGet st.store P = some pdoc)
    (htm : hasTreeMetaDict pdoc = true)
    (hPne : P ≠ "")
    (hpar : d.parent_id = some P)
    (hfin : d.is_final_summary = false)
    (hid : d.document_id = some s)
    (hsne : s ≠ "")
    (hsP : s ≠ P)
    (hv : embed d.content = Except.ok v) :
    ∃ st' pdoc', ingestStep embed genId now st d = .ok st'
      ∧ storeGet st'.store P = some pdoc'
      ∧ pdoc'.hierarchy.children_ids
          = appendIfAbsent pdoc.hierarchy.children_ids s
      ∧ hasTreeMetaDict pdoc' = true := by
  have hdup : (match alistGet st.workflow_validation d.workflow_id with
      | some entry => entry.final_summary_exists && d.is_final_summary
      | Option.none => false) = false := by
    cases alistGet st.workflow_validation d.workflow_id with
    | none => rfl
    | some e =>
      rw [hfin]
      dsimp only
      rw [Bool.and_false]
  have hget1 : storeGet (storePut st.store s (mkEsDoc d s v now)) P
      = some pdoc := by
    unfold storeGet storePut
    rw [alistGet_alistSet_other st.store s P (mkEsDoc d s v now) (Ne.symm hsP)]
    exact hP
  unfold ingestStep
  dsimp only
  rw [hdup, if_neg Bool.false_ne_true, hid]
  dsimp only
  rw [if_neg hsne, hv]
  dsimp only
  rw [hpar]
  dsimp only
  rw [if_neg hPne]
  unfold updateParentLink
  rw [hget1]
  dsimp only
  by_cases hmem : s ∈ pdoc.hierarchy.children_ids
  · rw [if_pos hmem]
    refine ⟨_, pdoc, rfl, hget1, ?_, htm⟩
    rw [appendIfAbsent, if_pos hmem]
  · rw [if_neg hmem]
    unfold hasTreeMetaDict at htm
    cases hdg : dictGet pdoc.metadata "tree_metadata" with
    | none =>
      rw [hdg] at htm
      cases htm
    | some tv =>
      cases tv with
      | dict tm =>
        dsimp only
        refine ⟨_, _, rfl, alistGet_alistSet_self _ _ _, ?_, ?_⟩
        · rw [appendIfAbsent, if_neg hmem]
        · unfold hasTreeMetaDict
          dsimp only
          rw [dictGet_dictSet_self]
      | str sv =>
        rw [hdg] at htm
        cases htm
      | int iv =>
        rw [hdg] at htm
        cases htm
      | float fv =>
        rw [hdg] at htm
        cases htm
      | bool bv =>
        rw [hdg] at htm
        cases htm
      | none =>
        rw [hdg] at htm
        cases htm
      | list lv =>
        rw [hdg] at htm
        cases htm

/-- C7.  Over any clean run of an ingestion batch whose documents are
children of `P` (explicit non-empty ids, not overwriting `P`, no final
summaries, embeddings succeeding), `P`'s stored `children_ids` ends up
as the `appendIfAbsent` fold of the children ids in batch order: each
distinct child id is appended exactly once, at its first occurrence, so
re-ingesting the same id adds nothing, insertion order of distinct ids
is preserved, and duplicate-freeness is maintained. -/
theorem C7_children_ids_nodup_ordered (embed : String → Except String EmbVec)
    (genId : Nat → String) (now : String) :
    ∀ (docs : List DocumentInput) (st : IngestState) (P : String) (pdoc : EsDoc),
      storeGet st.store P = some pdoc →
      hasTreeMetaDict pdoc = true →
      P ≠ "" →
      (∀ d ∈ docs, d.parent_id = some P ∧ d.is_final_summary = false
        ∧ ∃ s, d.document_id = some s ∧ s ≠ "" ∧ s ≠ P) →
      (∀ d ∈ docs, ∃ v, embed d.content = Except.ok v) →
      ∃ pdoc', storeGet (ingestLoop embed genId now docs st).1.store P = some pdoc'
        ∧ pdoc'.hierarchy.children_ids
            = docs.foldl (fun acc d => appendIfAbsent acc (d.document_id.getD ""))
                pdoc.hierarchy.children_ids
        ∧ (pdoc.hierarchy.children_ids.Nodup → pdoc'.hierarchy.children_ids.Nodup) := by
  intro docs
  induction docs with
  | nil =>
    intro st P pdoc hP htm hPne hall hemb
    exact ⟨pdoc, hP, rfl, id⟩
  | cons d ds ih =>
    intro st P pdoc hP htm hPne hall hemb
    obtain ⟨hpar, hfin, s, hid, hsne, hsP⟩ := hall d (List.mem_cons_self _ _)
    obtain ⟨v, hv⟩ := hemb d (List.mem_cons_self _ _)
    obtain ⟨st', pdoc1, hstep, hP1, hch1, htm1⟩ :=
      ingestStep_parent_children embed genId now st d P pdoc s v hP htm hPne
        hpar hfin hid hsne hsP hv
    obtain ⟨pdoc', h1, h2, h3⟩ := ih st' P pdoc1 hP1 htm1 hPne
      (fun q hq => hall q (List.mem_cons_of_mem _ hq))
      (fun q hq => hemb q (List.mem_cons_of_mem _ hq))
    refine ⟨pdoc', ?_, ?_, ?_⟩
    · simpa only [ingestLoop, hstep] using h1
    · rw [List.foldl_cons, hid]
      simp only [Option.getD_some]
      rw [← hch1, ← h2]
    · intro hnd
      exact h3 (hch1 ▸ appendIfAbsent_nodup _ s hnd)

/-- A parent document fixture carrying the `tree_metadata` dict shape
the ingest path writes. -/
def exParentDoc : EsDoc :=
  { content := "parent", embedding := some [], document_type := "t",
    document_id := "P", ingestion_timestamp := "t0",
    hierarchy := exHier 0 Option.none [],
    workflow := { workflow_id := "W", is_final_summary := false,
                  summary_type := Option.none },
    metadata := [("tree_metadata", .dict
      [ ("has_children", .bool false), ("has_parent", .bool false)
      , ("node_type", .str "root") ])] }

def exChildDoc (i : String) : DocumentInput :=
  { content := "child body", workflow_id := "W", document_id := some i,
    parent_id := some "P" }

/-- C7, witness: ingesting children x, x (again) and y of `P` leaves
`children_ids = [x, y]` — the duplicate is not accumulated and order is
preserved. -/
theorem C7_witness :
    ∃ pdoc', storeGet (ingestLoop embedOk genIdEx "t0"
        [exChildDoc "x", exChildDoc "x", exChildDoc "y"]
        ⟨[("P", exParentDoc)], [], [], 0⟩).1.store "P" = some pdoc'
      ∧ pdoc'.hierarchy.children_ids = ["x", "y"]
      ∧ pdoc'.hierarchy.children_ids.Nodup := by
  obtain ⟨pdoc', h1, h2, h3⟩ := C7_children_ids_nodup_ordered embedOk genIdEx "t0"
    [exChildDoc "x", exChildDoc "x", exChildDoc "y"]
    ⟨[("P", exParentDoc)], [], [], 0⟩ "P" exParentDoc rfl rfl (by decide)
    (by
      intro d hd
      fin_cases hd
      · exact ⟨rfl, rfl, "x", rfl, by decide, by decide⟩
      · exact ⟨rfl, rfl, "x", rfl, by decide, by decide⟩
      · exact ⟨rfl, rfl, "y", rfl, by decide, by decide⟩)
    (fun d _ => ⟨[], rfl⟩)
  refine ⟨pdoc', h1, ?_, h3 List.nodup_nil⟩
  rw [h2]
  rfl

/-! ## Claim C10 — guarded metadata merge in `update_status` -/

/-- Keys the status update itself writes into the metadata. -/
def statusReservedKeys (newStatus : String) : List String :=
  [ "processing_status", "last_updated", "previous_status", "update_attempt"
  , "status_transition_" ++ newStatus ]

theorem dictGet_eq_none_of_not_mem (d : PyDict) (k : String)
    (h : k ∉ d.map Prod.fst) : dictGet d k = Option.none := by
  induction d with
  | nil => rfl
  | cons p ps ih =>
    rw [List.map_cons] at h
    have h1 : p.1 ≠ k := fun hc => h (hc ▸ List.mem_cons_self _ _)
    have h2 : k ∉ ps.map Prod.fst := fun hc => h (List.mem_cons_of_mem _ hc)
    simp only [dictGet, if_neg h1]
    exact ih h2

theorem mem_keys_dictSet (d : PyDict) (k x : String) (v : PyValue) :
    x ∈ (dictSet d k v).map Prod.fst ↔ x = k ∨ x ∈ d.map Prod.fst := by
  induction d with
  | nil => simp [dictSet]
  | cons p ps ih =>
    by_cases hp : p.1 = k
    · rw [show dictSet (p :: ps) k v = (k, v) :: ps from by simp [dictSet, hp]]
      simp only [List.map_cons, List.mem_cons]
      constructor
      · rintro (h | h)
        · exact Or.inl h
        · exact Or.inr (Or.inr h)
      · rintro (h | h | h)
        · exact Or.inl h
        · exact Or.inl (h.trans hp)
        · exact Or.inr h
    · rw [show dictSet (p :: ps) k v = p :: dictSet ps k v from by simp [dictSet, hp]]
      simp only [List.map_cons, List.mem_cons, ih]
      tauto

theorem dictSet_keys_nodup (d : PyDict) (k : String) (v : PyValue)
    (h : (d.map Prod.fst).Nodup) : ((dictSet d k v).map Prod.fst).Nodup := by
  induction d with
  | nil => simp [dictSet]
  | cons p ps ih =>
    rw [List.map_cons, List.nodup_cons] at h
    by_cases hp : p.1 = k
    · simp only [dictSet, if_pos hp, List.map_cons, List.nodup_cons]
      exact ⟨hp ▸ h.1, h.2⟩
    · simp only [dictSet, if_neg hp, List.map_cons, List.nodup_cons]
      refine ⟨?_, ih h.2⟩
      intro hc
      rcases (mem_keys_dictSet ps k p.1 v).mp hc with hc1 | hc2
      · exact hp hc1
      · exact h.1 hc2

/-- Dict update resolves lookups through the update first (for
duplicate-free updates, as Python dicts are). -/
theorem dictGet_dictUpdate (u : PyDict) :
    ∀ (d : PyDict) (k : String), ((u.map Prod.fst).Nodup) →
      dictGet (dictUpdate d u) k
        = match dictGet u k with
          | some v => some v
          | Option.none => dictGet d k := by
  induction u with
  | nil =>
    intro d k _
    rfl
  | cons p us ih =>
    intro d k hnd
    rw [List.map_cons, List.nodup_cons] at hnd
    have hstep : dictUpdate d (p :: us) = dictUpdate (dictSet d p.1 p.2) us :=
      rfl
    rw [hstep, ih (dictSet d p.1 p.2) k hnd.2]
    by_cases hk : p.1 = k
    · have hus : dictGet us k = Option.none :=
        dictGet_eq_none_of_not_mem us k (hk ▸ hnd.1)
      rw [hus]
      simp only [dictGet, if_pos hk]
      rw [hk, dictGet_dictSet_self]
    · simp only [dictGet, if_neg hk]
      cases dictGet us k with
      | none => exact dictGet_dictSet_other d p.1 k p.2 (fun hc => hk hc.symm)
      | some v => rfl

/-- The per-entry effect of the merge loop, normalised: assign iff the
key and value both conform. -/
theorem mergeStep_eq (base : PyDict) (k : String) (v : PyValue) :
    (if !(validMetaKey k) then base
     else if validMetaValue v then dictSet base k v else base)
      = (if validMetaKey k && validMetaValue v then dictSet base k v else base) := by
  by_cases h1 : validMetaKey k <;> by_cases h2 : validMetaValue v <;>
    simp [h1, h2]

/-- Keys untouched by `additional_metadata` read through the merge to
the base `status_update` object. -/
theorem dictGet_merge_not_mem (k : String) :
    ∀ (add : PyDict) (base : PyDict), k ∉ add.map Prod.fst →
      dictGet (mergeAdditionalMetadata base add) k = dictGet base k := by
  intro add
  induction add with
  | nil =>
    intro base _
    rfl
  | cons p us ih =>
    intro base hk
    rw [List.map_cons] at hk
    have hk1 : p.1 ≠ k := fun hc => hk (hc ▸ List.mem_cons_self _ _)
    have hk2 : k ∉ us.map Prod.fst := fun hc => hk (List.mem_cons_of_mem _ hc)
    show dictGet (mergeAdditionalMetadata
      (if !(validMetaKey p.1) then base
       else if validMetaValue p.2 then dictSet base p.1 p.2 else base) us) k
      = dictGet base k
    rw [mergeStep_eq, ih _ hk2]
    by_cases hcf : validMetaKey p.1 && validMetaValue p.2
    · rw [if_pos hcf]
      exact dictGet_dictSet_other base p.1 k p.2 (fun hc => hk1 hc.symm)
    · rw [if_neg hcf]

/-- Each `additional_metadata` entry reads through the merge to its
value when it conforms, and to the base otherwise. -/
theorem dictGet_merge_mem (k : String) (v : PyValue) :
    ∀ (add : PyDict) (base : PyDict), (k, v) ∈ add →
      ((add.map Prod.fst).Nodup) →
      dictGet (mergeAdditionalMetadata base add) k
        = if validMetaKey k && validMetaValue v then some v
          else dictGet base k := by
  intro add
  induction add with
  | nil =>
    intro base hmem _
    cases hmem
  | cons p us ih =>
    intro base hmem hnd
    rw [List.map_cons, List.nodup_cons] at hnd
    show dictGet (mergeAdditionalMetadata
      (if !(validMetaKey p.1) then base
       else if validMetaValue p.2 then dictSet base p.1 p.2 else base) us) k
      = _
    rw [mergeStep_eq]
    rcases List.mem_cons.mp hmem with heq | hmem'
    · have hp : p = (k, v) := heq.symm
      subst hp
      have hus : k ∉ us.map Prod.fst := hnd.1
      rw [dictGet_merge_not_mem k us _ hus]
      by_cases hcf : validMetaKey k && validMetaValue v
      · rw [if_pos hcf, if_pos hcf, dictGet_dictSet_self]
      · rw [if_neg hcf, if_neg hcf]
    · have hkne : p.1 ≠ k := by
        intro hc
        exact hnd.1 (hc ▸ List.mem_map_of_mem Prod.fst hmem')
      rw [ih _ hmem' hnd.2]
      by_cases hcf : validMetaKey k && validMetaValue v
      · rw [if_pos hcf, if_pos hcf]
      · rw [if_neg hcf, if_neg hcf]
        by_cases hcp : validMetaKey p.1 && validMetaValue p.2
        · rw [if_pos hcp]
          exact dictGet_dictSet_other base p.1 k p.2 (fun hc => hkne hc.symm)
        · rw [if_neg hcp]

theorem dictGet_statusUpdateDict_not_reserved (ns ts : String) (prev : PyValue)
    (att : Nat) (k : String) (h : k ∉ statusReservedKeys ns) :
    dictGet (statusUpdateDict ns ts prev att) k = Option.none := by
  simp only [statusReservedKeys, List.mem_cons, List.not_mem_nil, or_false,
    not_or] at h
  obtain ⟨h1, h2, h3, h4, h5⟩ := h
  simp only [statusUpdateDict, dictGet]
  rw [if_neg (fun hc => h1 hc.symm), if_neg (fun hc => h2 hc.symm),
    if_neg (fun hc => h3 hc.symm), if_neg (fun hc => h4 hc.symm),
    if_neg (fun hc => h5 hc.symm)]

theorem statusUpdateDict_keys_nodup (ns ts : String) (prev : PyValue)
    (att : Nat) :
    ((statusUpdateDict ns ts prev att).map Prod.fst).Nodup := by
  have htr : ∀ t : String, t.length < 18 → "status_transition_" ++ ns ≠ t := by
    intro t hlen hc
    have hlc := congrArg String.length hc
    rw [String.length_append,
      show ("status_transition_").length = 18 from rfl] at hlc
    omega
  simp only [statusUpdateDict, List.map_cons, List.map_nil]
  refine List.nodup_cons.mpr ⟨?_, List.nodup_cons.mpr ⟨?_,
    List.nodup_cons.mpr ⟨?_, List.nodup_cons.mpr ⟨?_, List.nodup_singleton _⟩⟩⟩⟩
  · simp only [List.mem_cons, List.not_mem_nil, or_false, not_or]
    exact ⟨by decide, by decide, by decide,
      fun hc => htr _ (by decide) hc.symm⟩
  · simp only [List.mem_cons, List.not_mem_nil, or_false, not_or]
    exact ⟨by decide, by decide, fun hc => htr _ (by decide) hc.symm⟩
  · simp only [List.mem_cons, List.not_mem_nil, or_false, not_or]
    exact ⟨by decide, fun hc => htr _ (by decide) hc.symm⟩
  · simp only [List.mem_cons, List.not_mem_nil, or_false, not_or]
    exact fun hc => htr _ (by decide) hc.symm

theorem merge_keys_nodup (add : PyDict) :
    ∀ base : PyDict, ((base.map Prod.fst).Nodup) →
      (((mergeAdditionalMetadata base add).map Prod.fst).Nodup) := by
  induction add with
  | nil =>
    intro base h
    exact h
  | cons p us ih =>
    intro base h
    show (((mergeAdditionalMetadata
      (if !(validMetaKey p.1) then base
       else if validMetaValue p.2 then dictSet base p.1 p.2 else base) us).map
        Prod.fst).Nodup)
    rw [mergeStep_eq]
    by_cases hcf : validMetaKey p.1 && validMetaValue p.2
    · rw [if_pos hcf]
      exact ih _ (dictSet_keys_nodup base p.1 p.2 h)
    · rw [if_neg hcf]
      exact ih _ h

/-- C10.  With a valid target status, an existing document, and
additional metadata whose keys avoid the reserved status fields, the
update succeeds and the stored metadata satisfies: every additional
entry is merged iff its key is no `_`-prefixed string of at most 100
characters... i.e. iff the key conforms (no `_` prefix, ≤ 100 chars)
and the value is a scalar whose string form is ≤ 1000 characters;
every non-conforming entry leaves its key untouched; and
`processing_status`, `last_updated` and `previous_status` are updated
regardless. -/
theorem C10_metadata_merge_guarded (store : Store) (req : StatusUpdateRequest)
    (now : String) (doc : EsDoc) (add : PyDict)
    (hval : req.processing_status ∈ validStatuses)
    (hdoc : storeGet store req.document_id = some doc)
    (hadd : req.additional_metadata = some add)
    (hnd : (add.map Prod.fst).Nodup)
    (hres : ∀ kv ∈ add, kv.1 ∉ statusReservedKeys req.processing_status) :
    ∃ doc', storeGet (updateProcessingStatus store req now).1 req.document_id
        = some doc'
      ∧ (updateProcessingStatus store req now).2
          = .ok { status := "updated", document_id := req.document_id,
                  previous_status :=
                    (dictGet doc.metadata "processing_status").getD (.str "unknown"),
                  new_status := req.processing_status, updated_at := now,
                  attempt := 1 }
      ∧ (∀ kv ∈ add, dictGet doc'.metadata kv.1
          = if validMetaKey kv.1 && validMetaValue kv.2 then some kv.2
            else dictGet doc.metadata kv.1)
      ∧ dictGet doc'.metadata "processing_status"
          = some (.str req.processing_status)
      ∧ dictGet doc'.metadata "last_updated" = some (.str now)
      ∧ dictGet doc'.metadata "previous_status"
          = some ((dictGet doc.metadata "processing_status").getD (.str "unknown")) := by
  have hknd : ∀ k, k ∈ statusReservedKeys req.processing_status →
      k ∉ add.map Prod.fst := by
    intro k hk hmem
    obtain ⟨kv, hkv, hfst⟩ := List.mem_map.mp hmem
    exact hres kv hkv (hfst ▸ hk)
  unfold updateProcessingStatus
  rw [if_neg (not_not.mpr hval), hdoc]
  dsimp only
  rw [hadd]
  dsimp only
  set prev := (dictGet doc.metadata "processing_status").getD (.str "unknown")
    with hprev
  set base := statusUpdateDict req.processing_status now prev 0 with hbase
  set merged := mergeAdditionalMetadata base add with hmerged
  have hmnd : ((merged.map Prod.fst).Nodup) :=
    merge_keys_nodup add base (statusUpdateDict_keys_nodup _ _ _ _)
  refine ⟨_, alistGet_alistSet_self _ _ _, rfl, ?_, ?_, ?_, ?_⟩
  · intro kv hkv
    dsimp only
    rw [dictGet_dictUpdate merged doc.metadata kv.1 hmnd]
    rw [hmerged, dictGet_merge_mem kv.1 kv.2 add base hkv hnd]
    by_cases hcf : validMetaKey kv.1 && validMetaValue kv.2
    · rw [if_pos hcf, if_pos hcf]
    · rw [if_neg hcf, if_neg hcf, hbase,
        dictGet_statusUpdateDict_not_reserved _ _ _ _ _ (hres kv hkv)]
  · dsimp only
    rw [dictGet_dictUpdate merged doc.metadata _ hmnd, hmerged,
      dictGet_merge_not_mem _ add base
        (hknd "processing_status" (List.mem_cons_self _ _)), hbase]
    rfl
  · dsimp only
    rw [dictGet_dictUpdate merged doc.metadata _ hmnd, hmerged,
      dictGet_merge_not_mem _ add base
        (hknd "last_updated"
          (List.mem_cons_of_mem _ (List.mem_cons_self _ _))), hbase]
    rfl
  · dsimp only
    rw [dictGet_dictUpdate merged doc.metadata _ hmnd, hmerged,
      dictGet_merge_not_mem _ add base
        (hknd "previous_status" (List.mem_cons_of_mem _
          (List.mem_cons_of_mem _ (List.mem_cons_self _ _)))), hbase]
    rfl

/-- Additional metadata with one conforming entry, one `_`-prefixed key
and one non-scalar value. -/
def exAddMeta : PyDict :=
  [ ("note", .str "ok"), ("_secret", .str "x"), ("blob", .dict []) ]

/-- C10, witness: the conforming entry lands in the metadata, the
`_`-prefixed key and the non-scalar value are skipped, and the status
fields are updated. -/
theorem C10_witness :
    ∃ doc', storeGet (updateProcessingStatus
        [("doc1", exStoredDoc "doc1" 0 Option.none [])]
        { document_id := "doc1", processing_status := "completed",
          additional_metadata := some exAddMeta } "t1").1 "doc1" = some doc'
      ∧ dictGet doc'.metadata "note" = some (.str "ok")
      ∧ dictGet doc'.metadata "_secret" = Option.none
      ∧ dictGet doc'.metadata "blob" = Option.none
      ∧ dictGet doc'.metadata "processing_status" = some (.str "completed")
      ∧ dictGet doc'.metadata "previous_status" = some (.str "ready") := by
  obtain ⟨doc', h1, _, h3, h4, _, h6⟩ := C10_metadata_merge_guarded
    [("doc1", exStoredDoc "doc1" 0 Option.none [])]
    { document_id := "doc1", processing_status := "completed",
      additional_metadata := some exAddMeta } "t1"
    (exStoredDoc "doc1" 0 Option.none []) exAddMeta
    (by decide) rfl rfl (by decide) (by decide)
  have hn := h3 ("note", .str "ok") (List.mem_cons_self _ _)
  rw [if_pos (by decide)] at hn
  have hs := h3 ("_secret", .str "x")
    (List.mem_cons_of_mem _ (List.mem_cons_self _ _))
  rw [if_neg (by decide)] at hs
  have hb := h3 ("blob", .dict [])
    (List.mem_cons_of_mem _ (List.mem_cons_of_mem _ (List.mem_cons_self _ _)))
  rw [if_neg (by decide)] at hb
  refine ⟨doc', h1, hn, ?_, ?_, h4, ?_⟩
  · rw [hs]
    rfl
  · rw [hb]
    rfl
  · rw [h6]
    rfl
